import Mathlib

/-!
The key listener of open-wisprflow, `resources/windows-key-listener.c`.

A shallow embedding of the push-to-talk key listener: the hotkey parser
(`ParseKeyCode`, `ParseCompoundHotkey`, the start of `main`) and the key-state
tracker (`AreModifiersPressed`, `LowLevelKeyboardProc`), followed by theorems
about them.

Conventions of the embedding.

* A C string is the list of its `char` codes (`List Nat`); the string denoted
  by a list ends before its first `0`.
* The file-scope variables `g_targetVk`, `g_isKeyDown`, `g_requireCtrl`, ...
  are the fields of `Globals`, passed explicitly.
* The keyboard is a function from virtual-key code to the 16-bit value that
  `GetAsyncKeyState` returns for it at the moment of the call.
* `printf` to stdout is a list of `Line`s, in the order written.
* `DWORD` and `long` are 32 bits wide (Win32).
-/

namespace KeyListener

/-! ## Constants of `<windows.h>` used by the source -/

def HC_ACTION : Int := 0
def WM_KEYDOWN : Nat := 0x0100
def WM_KEYUP : Nat := 0x0101
def WM_SYSKEYDOWN : Nat := 0x0104
def WM_SYSKEYUP : Nat := 0x0105

def VK_TAB : Nat := 0x09
def VK_SHIFT : Nat := 0x10
def VK_CONTROL : Nat := 0x11
def VK_MENU : Nat := 0x12
def VK_PAUSE : Nat := 0x13
def VK_CAPITAL : Nat := 0x14
def VK_ESCAPE : Nat := 0x1B
def VK_SPACE : Nat := 0x20
def VK_PRIOR : Nat := 0x21
def VK_NEXT : Nat := 0x22
def VK_END : Nat := 0x23
def VK_HOME : Nat := 0x24
def VK_INSERT : Nat := 0x2D
def VK_LWIN : Nat := 0x5B
def VK_RWIN : Nat := 0x5C
def VK_F1 : Nat := 0x70
def VK_F2 : Nat := 0x71
def VK_F3 : Nat := 0x72
def VK_F4 : Nat := 0x73
def VK_F5 : Nat := 0x74
def VK_F6 : Nat := 0x75
def VK_F7 : Nat := 0x76
def VK_F8 : Nat := 0x77
def VK_F9 : Nat := 0x78
def VK_F10 : Nat := 0x79
def VK_F11 : Nat := 0x7A
def VK_F12 : Nat := 0x7B
def VK_F13 : Nat := 0x7C
def VK_F14 : Nat := 0x7D
def VK_F15 : Nat := 0x7E
def VK_F16 : Nat := 0x7F
def VK_F17 : Nat := 0x80
def VK_F18 : Nat := 0x81
def VK_F19 : Nat := 0x82
def VK_F20 : Nat := 0x83
def VK_F21 : Nat := 0x84
def VK_F22 : Nat := 0x85
def VK_F23 : Nat := 0x86
def VK_F24 : Nat := 0x87
def VK_NUMLOCK : Nat := 0x90
def VK_SCROLL : Nat := 0x91
def VK_LSHIFT : Nat := 0xA0
def VK_RSHIFT : Nat := 0xA1
def VK_LCONTROL : Nat := 0xA2
def VK_RCONTROL : Nat := 0xA3
def VK_LMENU : Nat := 0xA4
def VK_RMENU : Nat := 0xA5
def VK_OEM_1 : Nat := 0xBA
def VK_OEM_PLUS : Nat := 0xBB
def VK_OEM_COMMA : Nat := 0xBC
def VK_OEM_MINUS : Nat := 0xBD
def VK_OEM_PERIOD : Nat := 0xBE
def VK_OEM_2 : Nat := 0xBF
def VK_OEM_3 : Nat := 0xC0
def VK_OEM_4 : Nat := 0xDB
def VK_OEM_5 : Nat := 0xDC
def VK_OEM_6 : Nat := 0xDD
def VK_OEM_7 : Nat := 0xDE

/-! ## State, events, output -/

/-- The file-scope variables of the listener (`g_hook` apart). -/
structure Globals where
  g_targetVk : Nat
  g_isKeyDown : Bool
  g_requireCtrl : Bool
  g_requireAlt : Bool
  g_requireShift : Bool
  g_requireWin : Bool
  g_useModifiersOnly : Bool
  deriving DecidableEq, Repr

/-- The static initialisers: `g_targetVk = 0`, every flag `FALSE`. -/
def Globals.initial : Globals :=
  { g_targetVk := 0, g_isKeyDown := false, g_requireCtrl := false,
    g_requireAlt := false, g_requireShift := false, g_requireWin := false,
    g_useModifiersOnly := false }

/-- A line written to stdout. -/
inductive Line where
  | READY
  | KEY_DOWN
  | KEY_UP
  deriving DecidableEq, Repr

/-- The arguments of one call of the hook procedure: `nCode`, `wParam` and
the `vkCode` field of the `KBDLLHOOKSTRUCT` that `lParam` points to. -/
structure KbdEvent where
  nCode : Int
  wParam : Nat
  vkCode : Nat
  deriving DecidableEq, Repr

/-- The keyboard at one moment: the value `GetAsyncKeyState` returns for each
virtual-key code, as a 16-bit pattern. -/
abbrev KeyboardState := Nat → Nat

/-- The test `GetAsyncKeyState(vk) & 0x8000`, as a truth value. -/
def keyHeld (ks : KeyboardState) (vk : Nat) : Bool :=
  (ks vk) &&& 0x8000 != 0

/-- `AreModifiersPressed` (source lines 30-40). -/
def AreModifiersPressed (g : Globals) (ks : KeyboardState) : Bool :=
  if g.g_requireCtrl && !keyHeld ks VK_CONTROL then false
  else if g.g_requireAlt && !keyHeld ks VK_MENU then false
  else if g.g_requireShift && !keyHeld ks VK_SHIFT then false
  else if g.g_requireWin && !keyHeld ks VK_LWIN && !keyHeld ks VK_RWIN then false
  else true

/-- The local `modifierReleased` of `LowLevelKeyboardProc` (source lines
133-145), as a function of the flags and the event's `vkCode`. -/
def modifierReleased (g : Globals) (vkCode : Nat) : Bool :=
  (g.g_requireCtrl &&
      (vkCode == VK_CONTROL || vkCode == VK_LCONTROL || vkCode == VK_RCONTROL)) ||
  (g.g_requireAlt &&
      (vkCode == VK_MENU || vkCode == VK_LMENU || vkCode == VK_RMENU)) ||
  (g.g_requireShift &&
      (vkCode == VK_SHIFT || vkCode == VK_LSHIFT || vkCode == VK_RSHIFT)) ||
  (g.g_requireWin && (vkCode == VK_LWIN || vkCode == VK_RWIN))

/-- The early-release block of `LowLevelKeyboardProc` (source lines 131-151):
the globals after it and the lines it wrote. -/
def releaseGuard (g : Globals) (isKeyUp : Bool) (vkCode : Nat) : Globals × List Line :=
  if g.g_isKeyDown && isKeyUp then
    if modifierReleased g vkCode then
      ({ g with g_isKeyDown := false }, [Line.KEY_UP])
    else (g, [])
  else (g, [])

/-- `LowLevelKeyboardProc` (source lines 125-190): the globals after the call
and the lines written to stdout during it.  The return value is always that of
`CallNextHookEx` and is left out. -/
def LowLevelKeyboardProc (g : Globals) (ks : KeyboardState) (e : KbdEvent) :
    Globals × List Line :=
  if e.nCode = HC_ACTION then
    let isKeyDown : Bool := e.wParam == WM_KEYDOWN || e.wParam == WM_SYSKEYDOWN
    let isKeyUp : Bool := e.wParam == WM_KEYUP || e.wParam == WM_SYSKEYUP
    let r := releaseGuard g isKeyUp e.vkCode
    let g1 := r.1
    let out1 := r.2
    if g1.g_useModifiersOnly then
      if isKeyDown then
        if !g1.g_isKeyDown && AreModifiersPressed g1 ks then
          ({ g1 with g_isKeyDown := true }, out1 ++ [Line.KEY_DOWN])
        else (g1, out1)
      else if isKeyUp then
        if g1.g_isKeyDown && !AreModifiersPressed g1 ks then
          ({ g1 with g_isKeyDown := false }, out1 ++ [Line.KEY_UP])
        else (g1, out1)
      else (g1, out1)
    else if e.vkCode == g1.g_targetVk then
      if isKeyDown then
        if !g1.g_isKeyDown && AreModifiersPressed g1 ks then
          ({ g1 with g_isKeyDown := true }, out1 ++ [Line.KEY_DOWN])
        else (g1, out1)
      else if isKeyUp then
        if g1.g_isKeyDown then
          ({ g1 with g_isKeyDown := false }, out1 ++ [Line.KEY_UP])
        else (g1, out1)
      else (g1, out1)
    else (g1, out1)
  else (g, [])

/-- The hook procedure called once per delivered event, in order; each event
comes with the keyboard state that `GetAsyncKeyState` reports during its
call.  Returns the final globals and everything written to stdout. -/
def runHook (g : Globals) : List (KbdEvent × KeyboardState) → Globals × List Line
  | [] => (g, [])
  | (e, ks) :: rest =>
    let r := LowLevelKeyboardProc g ks e
    let r2 := runHook r.1 rest
    (r2.1, r.2 ++ r2.2)

/-! ## C strings and the C library functions the parser calls -/

/-- The char codes of a string literal of the source. -/
def cstr (s : String) : List Nat := s.toList.map Char.toNat

/-- `tolower` in the "C" locale (the program never calls `setlocale`). -/
def tolower (c : Nat) : Nat := if 65 ≤ c ∧ c ≤ 90 then c + 32 else c

/-- The test `_stricmp(a, b) == 0`: equal after lower-casing every char. -/
def stricmp0 (a b : List Nat) : Bool := a.map tolower == b.map tolower

/-- The test `strcmp(a, b) == 0`. -/
def strcmp0 (a b : List Nat) : Bool := a == b

/-- `isspace` in the "C" locale: space, and `\t \n \v \f \r`. -/
def isspace (c : Nat) : Bool := c == 32 || (decide (9 ≤ c) && decide (c ≤ 13))

/-- The value of a char as a digit (`0-9`, then `a-z` or `A-Z` for 10-35). -/
def digitVal (c : Nat) : Option Nat :=
  if 48 ≤ c ∧ c ≤ 57 then some (c - 48)
  else if 97 ≤ c ∧ c ≤ 122 then some (c - 97 + 10)
  else if 65 ≤ c ∧ c ≤ 90 then some (c - 65 + 10)
  else none

/-- The number written by the longest initial run of digits of the base,
continuing from the value `acc` read so far. -/
def digitsValue (base : Nat) : Nat → List Nat → Nat
  | acc, [] => acc
  | acc, c :: cs =>
    match digitVal c with
    | some d => if d < base then digitsValue base (acc * base + d) cs else acc
    | none => acc

/-- An optional sign: whether it is `-`, and the rest of the string. -/
def takeSign : List Nat → Bool × List Nat
  | [] => (false, [])
  | c :: rest =>
    if c == 45 then (true, rest)
    else if c == 43 then (false, rest)
    else (false, c :: rest)

/-- The signed value, clamped to the range of a 32-bit `long`/`int`
(`LONG_MAX`/`LONG_MIN` on overflow, as the Microsoft C runtime returns). -/
def clampLong (neg : Bool) (v : Nat) : Int :=
  if neg then (if v > 2147483648 then -2147483648 else -(v : Int))
  else (if v > 2147483647 then 2147483647 else (v : Int))

/-- An optional `0x`/`0X` prefix is skipped.  (When no hexadecimal digit
follows it the C library reads only the `0`; the value is 0 either way.) -/
def skipHexPrefix : List Nat → List Nat
  | c :: x :: rest => if c == 48 && (x == 120 || x == 88) then rest else c :: x :: rest
  | s => s

/-- `strtol(s, NULL, 16)`: white space, an optional sign, an optional `0x`,
then hexadecimal digits. -/
def strtol16 (s : List Nat) : Int :=
  let r := takeSign (s.dropWhile isspace)
  clampLong r.1 (digitsValue 16 0 (skipHexPrefix r.2))

/-- `atoi(s)`: white space, an optional sign, then decimal digits. -/
def atoi (s : List Nat) : Int :=
  let r := takeSign (s.dropWhile isspace)
  clampLong r.1 (digitsValue 10 0 r.2)

/-- The cast `(DWORD)` of a `long` or `int`. -/
def toDWORD (v : Int) : Nat := (v % 4294967296).toNat

/-! ## The parser -/

/-- The block "Single letter/number" of `ParseKeyCode` (source lines
110-115): the code returned from inside it, if any. -/
def singleCharCode (keyName : List Nat) : Option Nat :=
  if keyName.length = 1 then
    let c := keyName.getD 0 0
    if 97 ≤ c ∧ c ≤ 122 then some (c - 97 + 65)
    else if 65 ≤ c ∧ c ≤ 90 then some c
    else if 48 ≤ c ∧ c ≤ 57 then some c
    else none
  else none

/-- The end of `ParseKeyCode` (source lines 117-122): a number in hexadecimal
after `0x`/`0X`, in decimal otherwise.  A char read past the end of the list is
the terminating 0. -/
def numericCode (keyName : List Nat) : Nat :=
  if keyName.getD 0 0 == 48 && (keyName.getD 1 0 == 120 || keyName.getD 1 0 == 88) then
    toDWORD (strtol16 keyName)
  else toDWORD (atoi keyName)

/-- `ParseKeyCode` (source lines 43-123). -/
def ParseKeyCode (keyName : List Nat) : Nat :=
  if stricmp0 keyName (cstr "F1") then VK_F1
  else if stricmp0 keyName (cstr "F2") then VK_F2
  else if stricmp0 keyName (cstr "F3") then VK_F3
  else if stricmp0 keyName (cstr "F4") then VK_F4
  else if stricmp0 keyName (cstr "F5") then VK_F5
  else if stricmp0 keyName (cstr "F6") then VK_F6
  else if stricmp0 keyName (cstr "F7") then VK_F7
  else if stricmp0 keyName (cstr "F8") then VK_F8
  else if stricmp0 keyName (cstr "F9") then VK_F9
  else if stricmp0 keyName (cstr "F10") then VK_F10
  else if stricmp0 keyName (cstr "F11") then VK_F11
  else if stricmp0 keyName (cstr "F12") then VK_F12
  else if stricmp0 keyName (cstr "F13") then VK_F13
  else if stricmp0 keyName (cstr "F14") then VK_F14
  else if stricmp0 keyName (cstr "F15") then VK_F15
  else if stricmp0 keyName (cstr "F16") then VK_F16
  else if stricmp0 keyName (cstr "F17") then VK_F17
  else if stricmp0 keyName (cstr "F18") then VK_F18
  else if stricmp0 keyName (cstr "F19") then VK_F19
  else if stricmp0 keyName (cstr "F20") then VK_F20
  else if stricmp0 keyName (cstr "F21") then VK_F21
  else if stricmp0 keyName (cstr "F22") then VK_F22
  else if stricmp0 keyName (cstr "F23") then VK_F23
  else if stricmp0 keyName (cstr "F24") then VK_F24
  else if stricmp0 keyName (cstr "Pause") then VK_PAUSE
  else if stricmp0 keyName (cstr "ScrollLock") then VK_SCROLL
  else if stricmp0 keyName (cstr "Insert") then VK_INSERT
  else if stricmp0 keyName (cstr "Home") then VK_HOME
  else if stricmp0 keyName (cstr "End") then VK_END
  else if stricmp0 keyName (cstr "PageUp") then VK_PRIOR
  else if stricmp0 keyName (cstr "PageDown") then VK_NEXT
  else if stricmp0 keyName (cstr "Space") then VK_SPACE
  else if stricmp0 keyName (cstr "Escape") || stricmp0 keyName (cstr "Esc") then VK_ESCAPE
  else if stricmp0 keyName (cstr "Tab") then VK_TAB
  else if stricmp0 keyName (cstr "CapsLock") then VK_CAPITAL
  else if stricmp0 keyName (cstr "NumLock") then VK_NUMLOCK
  else if stricmp0 keyName (cstr "RightAlt") || stricmp0 keyName (cstr "RightOption") then VK_RMENU
  else if stricmp0 keyName (cstr "RightControl") || stricmp0 keyName (cstr "RightCtrl") then VK_RCONTROL
  else if stricmp0 keyName (cstr "RightShift") then VK_RSHIFT
  else if stricmp0 keyName (cstr "RightSuper") || stricmp0 keyName (cstr "RightWin") ||
      stricmp0 keyName (cstr "RightMeta") || stricmp0 keyName (cstr "RightCommand") ||
      stricmp0 keyName (cstr "RightCmd") then VK_RWIN
  else if strcmp0 keyName (cstr "`") || stricmp0 keyName (cstr "Backquote") then VK_OEM_3
  else if strcmp0 keyName (cstr "-") || stricmp0 keyName (cstr "Minus") then VK_OEM_MINUS
  else if strcmp0 keyName (cstr "=") || stricmp0 keyName (cstr "Equal") then VK_OEM_PLUS
  else if strcmp0 keyName (cstr "[") then VK_OEM_4
  else if strcmp0 keyName (cstr "]") then VK_OEM_6
  else if strcmp0 keyName (cstr "\\") then VK_OEM_5
  else if strcmp0 keyName (cstr ";") then VK_OEM_1
  else if strcmp0 keyName (cstr "'") then VK_OEM_7
  else if strcmp0 keyName (cstr ",") then VK_OEM_COMMA
  else if strcmp0 keyName (cstr ".") then VK_OEM_PERIOD
  else if strcmp0 keyName (cstr "/") then VK_OEM_2
  else
    match singleCharCode keyName with
    | some code => code
    | none => numericCode keyName

/-- What `strncpy(buffer, hotkey, 255)` and the terminator at `buffer[255]`
leave in `buffer`: the chars of `hotkey` up to its end, at most 255. -/
def strncpyBuffer (hotkey : List Nat) : List Nat :=
  (hotkey.takeWhile (fun c => c != 0)).take 255

/-- The fields of a string between `+` chars, empty ones included. -/
def splitPlus : List Nat → List (List Nat)
  | [] => [[]]
  | c :: cs =>
    if c == 43 then [] :: splitPlus cs
    else
      match splitPlus cs with
      | [] => [[c]]
      | t :: ts => (c :: t) :: ts

/-- The tokens that `strtok(buffer, "+")` followed by `strtok(NULL, "+")`
until `NULL` returns: the non-empty fields between `+` chars. -/
def strtokTokens (buffer : List Nat) : List (List Nat) :=
  (splitPlus buffer).filter (fun t => !t.isEmpty)

/-- The trimming of a token (source lines 222-224): leading spaces are
skipped, then trailing spaces are cut, never the first remaining char. -/
def trimToken (token : List Nat) : List Nat :=
  match token.dropWhile (fun c => c == 32) with
  | [] => []
  | c :: rest => c :: rest.rdropWhile (fun c => c == 32)

/-- The first condition of the modifier chain (source lines 227-230). -/
def isCtrlName (token : List Nat) : Bool :=
  stricmp0 token (cstr "CommandOrControl") ||
  stricmp0 token (cstr "Control") ||
  stricmp0 token (cstr "Ctrl") ||
  stricmp0 token (cstr "CmdOrCtrl")

/-- The second condition of the modifier chain (source lines 232-233). -/
def isAltName (token : List Nat) : Bool :=
  stricmp0 token (cstr "Alt") ||
  stricmp0 token (cstr "Option")

/-- The third condition of the modifier chain (source line 235). -/
def isShiftName (token : List Nat) : Bool :=
  stricmp0 token (cstr "Shift")

/-- The fourth condition of the modifier chain (source lines 237-241). -/
def isWinName (token : List Nat) : Bool :=
  stricmp0 token (cstr "Super") ||
  stricmp0 token (cstr "Meta") ||
  stricmp0 token (cstr "Win") ||
  stricmp0 token (cstr "Command") ||
  stricmp0 token (cstr "Cmd")

/-- One turn of the loop of `ParseCompoundHotkey` (source lines 221-247) on
the globals and the local `mainKeyVk`. -/
def parseToken (st : Globals × Nat) (rawToken : List Nat) : Globals × Nat :=
  let token := trimToken rawToken
  if isCtrlName token then ({ st.1 with g_requireCtrl := true }, st.2)
  else if isAltName token then ({ st.1 with g_requireAlt := true }, st.2)
  else if isShiftName token then ({ st.1 with g_requireShift := true }, st.2)
  else if isWinName token then ({ st.1 with g_requireWin := true }, st.2)
  else (st.1, ParseKeyCode token)

/-- `ParseCompoundHotkey` (source lines 205-253): the returned `mainKeyVk`
and the globals it leaves. -/
def ParseCompoundHotkey (g : Globals) (hotkey : List Nat) : Nat × Globals :=
  let buffer := strncpyBuffer hotkey
  let g0 : Globals :=
    { g with g_requireCtrl := false, g_requireAlt := false, g_requireShift := false,
             g_requireWin := false, g_useModifiersOnly := false }
  let r := (strtokTokens buffer).foldl parseToken (g0, 0)
  (r.2, r.1)

/-- The parsing step of `main` (source lines 267-275): the globals with which
`main` goes on, or `none` when it reports `Invalid key` and returns 1. -/
def mainParse (g : Globals) (hotkey : List Nat) : Option Globals :=
  let r := ParseCompoundHotkey g hotkey
  let g1 : Globals := { r.2 with g_targetVk := r.1 }
  let g2 : Globals :=
    if g1.g_targetVk == 0 &&
        (g1.g_requireCtrl || g1.g_requireAlt || g1.g_requireShift || g1.g_requireWin) then
      { g1 with g_useModifiersOnly := true }
    else g1
  if g2.g_targetVk == 0 && !g2.g_useModifiersOnly then none else some g2

/-- A message written to stderr. -/
inductive Diagnostic where
  | usage
  | invalidKey (spec : List Nat)
  | listening (spec : List Nat) (g : Globals)
  | hookFailed
  deriving DecidableEq, Repr

/-- What a run of the program leaves behind. -/
structure MainResult where
  exitCode : Nat
  stdout : List Line
  stderr : List Diagnostic
  deriving DecidableEq, Repr

/-- `main` (source lines 255-304) as a function of `argv`, of whether
`SetWindowsHookEx` returns a hook, and of the events that the message loop
delivers to the hook before it ends. -/
def main (argv : List (List Nat)) (hookInstalled : Bool)
    (events : List (KbdEvent × KeyboardState)) : MainResult :=
  if argv.length < 2 then
    { exitCode := 1, stdout := [], stderr := [Diagnostic.usage] }
  else
    let spec := argv.getD 1 []
    match mainParse Globals.initial spec with
    | none => { exitCode := 1, stdout := [], stderr := [Diagnostic.invalidKey spec] }
    | some g =>
      if !hookInstalled then
        { exitCode := 1, stdout := [],
          stderr := [Diagnostic.listening spec g, Diagnostic.hookFailed] }
      else
        { exitCode := 0, stdout := Line.READY :: (runHook g events).2,
          stderr := [Diagnostic.listening spec g] }

/-! ## Vocabulary used to state the properties -/

/-- A key-down event that the hook acts on. -/
def KbdEvent.isDown (e : KbdEvent) : Bool :=
  decide (e.nCode = HC_ACTION) && (e.wParam == WM_KEYDOWN || e.wParam == WM_SYSKEYDOWN)

/-- A key-up event that the hook acts on. -/
def KbdEvent.isUp (e : KbdEvent) : Bool :=
  decide (e.nCode = HC_ACTION) && (e.wParam == WM_KEYUP || e.wParam == WM_SYSKEYUP)

/-- The i-th line of the strictly alternating sequence KEY_DOWN, KEY_UP, ... -/
def alternatingLine (i : Nat) : Line :=
  if i % 2 = 0 then Line.KEY_DOWN else Line.KEY_UP

/-- The output is an initial segment of KEY_DOWN, KEY_UP, KEY_DOWN, ... -/
def Alternates (out : List Line) : Prop :=
  out = (List.range out.length).map alternatingLine

/-- Tokens joined with `+`. -/
def joinPlus : List (List Nat) → List Nat
  | [] => []
  | [t] => t
  | t :: ts => t ++ 43 :: joinPlus ts

/-- The names of the modifier-name table that stand for Ctrl. -/
def ctrlNames : List (List Nat) :=
  [cstr "Ctrl", cstr "Control", cstr "CommandOrControl", cstr "CmdOrCtrl"]

/-- The names of the modifier-name table that stand for Alt. -/
def altNames : List (List Nat) := [cstr "Alt", cstr "Option"]

/-- The name of the modifier-name table that stands for Shift. -/
def shiftNames : List (List Nat) := [cstr "Shift"]

/-- The names of the modifier-name table that stand for the Win/Meta key. -/
def winNames : List (List Nat) :=
  [cstr "Super", cstr "Meta", cstr "Win", cstr "Command", cstr "Cmd"]

/-- The modifier-name table. -/
def modifierNames : List (List Nat) := ctrlNames ++ altNames ++ shiftNames ++ winNames

/-- The recognised key names: the letters (either case), the digits, F1-F24,
the named special keys, the right-hand modifier names, and the punctuation
names and symbols. -/
def keyNames : List (List Nat) :=
  (List.range 26).map (fun i => [65 + i]) ++
  (List.range 26).map (fun i => [97 + i]) ++
  (List.range 10).map (fun i => [48 + i]) ++
  [cstr "F1", cstr "F2", cstr "F3", cstr "F4", cstr "F5", cstr "F6", cstr "F7", cstr "F8", cstr "F9", cstr "F10", cstr "F11", cstr "F12", cstr "F13", cstr "F14", cstr "F15", cstr "F16", cstr "F17", cstr "F18", cstr "F19", cstr "F20", cstr "F21", cstr "F22", cstr "F23", cstr "F24"] ++
  [cstr "Pause", cstr "ScrollLock", cstr "Insert", cstr "Home", cstr "End", cstr "PageUp",
   cstr "PageDown", cstr "Space", cstr "Escape", cstr "Esc", cstr "Tab", cstr "CapsLock",
   cstr "NumLock"] ++
  [cstr "RightAlt", cstr "RightOption", cstr "RightControl", cstr "RightCtrl",
   cstr "RightShift", cstr "RightSuper", cstr "RightWin", cstr "RightMeta",
   cstr "RightCommand", cstr "RightCmd"] ++
  [cstr "`", cstr "Backquote", cstr "-", cstr "Minus", cstr "=", cstr "Equal", cstr "[",
   cstr "]", cstr "\\", cstr ";", cstr "'", cstr ",", cstr ".", cstr "/"]

/-- A key-down event on a key, as the hook receives it. -/
def keyDown (vk : Nat) : KbdEvent := { nCode := HC_ACTION, wParam := WM_KEYDOWN, vkCode := vk }

/-- A key-up event on a key, as the hook receives it. -/
def keyUp (vk : Nat) : KbdEvent := { nCode := HC_ACTION, wParam := WM_KEYUP, vkCode := vk }

/-- The keyboard with exactly the listed keys held. -/
def held (keys : List Nat) : KeyboardState := fun vk => if vk ∈ keys then 0x8000 else 0

/-- The globals that `main` computes for `Ctrl+F11`. -/
def ctrlF11 : Globals :=
  { Globals.initial with g_targetVk := VK_F11, g_requireCtrl := true }

/-- The globals that `main` computes for `Ctrl+Shift`. -/
def ctrlShiftOnly : Globals :=
  { Globals.initial with g_requireCtrl := true, g_requireShift := true,
                         g_useModifiersOnly := true }

/-- The key codes named by a required modifier of the descriptor: Ctrl is
VK_CONTROL, VK_LCONTROL, VK_RCONTROL; Alt is VK_MENU, VK_LMENU, VK_RMENU; Shift
is VK_SHIFT, VK_LSHIFT, VK_RSHIFT; Win is VK_LWIN, VK_RWIN. -/
def isRequiredModifierKey (g : Globals) (vk : Nat) : Prop :=
  (g.g_requireCtrl = true ∧ (vk = VK_CONTROL ∨ vk = VK_LCONTROL ∨ vk = VK_RCONTROL)) ∨
  (g.g_requireAlt = true ∧ (vk = VK_MENU ∨ vk = VK_LMENU ∨ vk = VK_RMENU)) ∨
  (g.g_requireShift = true ∧ (vk = VK_SHIFT ∨ vk = VK_LSHIFT ∨ vk = VK_RSHIFT)) ∨
  (g.g_requireWin = true ∧ (vk = VK_LWIN ∨ vk = VK_RWIN))

/-- The modifier keys of the keyboard, generic and left/right. -/
def isModifierKey (vk : Nat) : Bool :=
  decide (vk ∈ [VK_SHIFT, VK_CONTROL, VK_MENU, VK_LWIN, VK_RWIN, VK_LSHIFT, VK_RSHIFT,
    VK_LCONTROL, VK_RCONTROL, VK_LMENU, VK_RMENU])

/-- An event that may come while the primary key stays held: a key-repeat
Down of the primary key, or a Down or Up of a modifier key other than an Up of
the primary key itself. -/
def whileHeldEvent (g : Globals) (e : KbdEvent) : Bool :=
  (e.isDown && e.vkCode == g.g_targetVk) ||
  ((e.isDown || e.isUp) && isModifierKey e.vkCode && !(e.isUp && e.vkCode == g.g_targetVk))

/-- No key-repeat Down of the primary key arrives with all required modifiers
pressed after an Up of a required modifier key; `released` tells whether such
an Up has already been seen. -/
def noReactivation (g : Globals) : Bool → List (KbdEvent × KeyboardState) → Bool
  | _, [] => true
  | released, (e, ks) :: rest =>
    if e.isDown && e.vkCode == g.g_targetVk then
      !(released && AreModifiersPressed g ks) && noReactivation g released rest
    else noReactivation g (released || (e.isUp && modifierReleased g e.vkCode)) rest


/-- The key names that `ParseKeyCode` enumerates, one list per key: the names
in one list are the aliases of that key.  Letters are listed in upper case. -/
def keyAliasGroups : List (List (List Nat)) :=
  (List.range 26).map (fun i => [[65 + i]]) ++
  (List.range 10).map (fun i => [[48 + i]]) ++
  [[cstr "F1"], [cstr "F2"], [cstr "F3"], [cstr "F4"], [cstr "F5"], [cstr "F6"], [cstr "F7"], [cstr "F8"], [cstr "F9"], [cstr "F10"], [cstr "F11"], [cstr "F12"], [cstr "F13"], [cstr "F14"], [cstr "F15"], [cstr "F16"], [cstr "F17"], [cstr "F18"], [cstr "F19"], [cstr "F20"], [cstr "F21"], [cstr "F22"], [cstr "F23"], [cstr "F24"]] ++
  [[cstr "Pause"], [cstr "ScrollLock"], [cstr "Insert"], [cstr "Home"], [cstr "End"],
   [cstr "PageUp"], [cstr "PageDown"], [cstr "Space"], [cstr "Escape", cstr "Esc"],
   [cstr "Tab"], [cstr "CapsLock"], [cstr "NumLock"]] ++
  [[cstr "RightAlt", cstr "RightOption"], [cstr "RightControl", cstr "RightCtrl"],
   [cstr "RightShift"],
   [cstr "RightSuper", cstr "RightWin", cstr "RightMeta", cstr "RightCommand",
    cstr "RightCmd"]] ++
  [[cstr "`", cstr "Backquote"], [cstr "-", cstr "Minus"], [cstr "=", cstr "Equal"],
   [cstr "["], [cstr "]"], [cstr "\\"], [cstr ";"], [cstr "'"], [cstr ","], [cstr "."],
   [cstr "/"]]

/-- The token is an enumerated key name in some letter case (the single
letters and digits are among the enumerated names). -/
def isEnumeratedKeyName (token : List Nat) : Bool :=
  keyAliasGroups.any (fun grp => grp.any (fun n => stricmp0 token n))

/-- The token is a modifier name in some letter case: one of the four
conditions of the modifier chain holds. -/
def isModifierName (token : List Nat) : Bool :=
  isCtrlName token || isAltName token || isShiftName token || isWinName token

/-- A decimal digit. -/
def isDecDigit (c : Nat) : Bool := decide (48 ≤ c) && decide (c ≤ 57)

/-- A hexadecimal digit, `0-9`, `a-f` or `A-F`. -/
def isHexDigit (c : Nat) : Bool :=
  isDecDigit c || (decide (97 ≤ c) && decide (c ≤ 102)) || (decide (65 ≤ c) && decide (c ≤ 70))

/-- The number that a string of digits writes in the base. -/
def numeralValue (base : Nat) (digits : List Nat) : Nat :=
  digits.foldl (fun acc c => acc * base + (digitVal c).getD 0) 0

/-- The token begins with a number as `atoi` reads one: a decimal digit comes
right after the optional white space and the optional sign. -/
def beginsWithNumber (token : List Nat) : Bool :=
  match (takeSign (token.dropWhile isspace)).2 with
  | [] => false
  | c :: _ => isDecDigit c

/-- The tokens of a spec as the loop of `ParseCompoundHotkey` classifies
them: cut by `strtok` out of the first 255 chars of the spec, then trimmed. -/
def parsedTokens (spec : List Nat) : List (List Nat) :=
  (strtokTokens (strncpyBuffer spec)).map trimToken

/-- The tokens of the whole spec string, trimmed. -/
def specTokens (spec : List Nat) : List (List Nat) :=
  (strtokTokens spec).map trimToken

/-- The last token that is no modifier name, if there is one. -/
def lastKeyToken (tokens : List (List Nat)) : Option (List Nat) :=
  (tokens.filter (fun t => !isModifierName t)).getLast?

/-- The second string is the first with space chars inserted before it and
after it; an empty field, which holds no token, is left as it is. -/
def SpacePadded (field padded : List Nat) : Prop :=
  (field = [] ∧ padded = []) ∨
  (field ≠ [] ∧ ∃ a b : Nat, padded = List.replicate a 32 ++ field ++ List.replicate b 32)

/-! ## The tracker: one call of the hook -/

theorem areModifiersPressed_setKeyDown (g : Globals) (b : Bool) (ks : KeyboardState) :
    AreModifiersPressed { g with g_isKeyDown := b } ks = AreModifiersPressed g ks := rfl

theorem down_not_up (wp : Nat) (h : (wp == WM_KEYDOWN || wp == WM_SYSKEYDOWN) = true) :
    (wp == WM_KEYUP || wp == WM_SYSKEYUP) = false := by
  simp only [WM_KEYDOWN, WM_SYSKEYDOWN, WM_KEYUP, WM_SYSKEYUP, Bool.or_eq_true, beq_iff_eq,
    Bool.or_eq_false_iff, beq_eq_false_iff_ne] at *
  omega

/-- A call with `nCode != HC_ACTION` does nothing. -/
theorem hook_no_action (g : Globals) (ks : KeyboardState) (e : KbdEvent)
    (hn : e.nCode ≠ HC_ACTION) : LowLevelKeyboardProc g ks e = (g, []) := by
  simp [LowLevelKeyboardProc, hn]

/-- The hook in closed form.  From active, KEY_UP is written on a key-up that
releases a required modifier, or (modifiers-only) finds the modifiers no longer
pressed, or (primary key) is on the target key.  From inactive, KEY_DOWN is
written on a key-down with the modifiers pressed that (primary key) is on the
target key. -/
theorem hook_action (g : Globals) (ks : KeyboardState) (e : KbdEvent)
    (hn : e.nCode = HC_ACTION) :
    LowLevelKeyboardProc g ks e =
      if g.g_isKeyDown then
        if (e.wParam == WM_KEYUP || e.wParam == WM_SYSKEYUP) &&
            (modifierReleased g e.vkCode ||
              (if g.g_useModifiersOnly then !AreModifiersPressed g ks
               else e.vkCode == g.g_targetVk)) then
          ({ g with g_isKeyDown := false }, [Line.KEY_UP])
        else (g, [])
      else
        if (e.wParam == WM_KEYDOWN || e.wParam == WM_SYSKEYDOWN) &&
            AreModifiersPressed g ks &&
            (g.g_useModifiersOnly || e.vkCode == g.g_targetVk) then
          ({ g with g_isKeyDown := true }, [Line.KEY_DOWN])
        else (g, []) := by
  obtain ⟨vk, b, c, a, s, w, m⟩ := g
  obtain ⟨n, wp, k⟩ := e
  unfold LowLevelKeyboardProc releaseGuard
  have hx2 := down_not_up wp
  generalize (wp == WM_KEYDOWN || wp == WM_SYSKEYDOWN) = dn at *
  generalize (wp == WM_KEYUP || wp == WM_SYSKEYUP) = up at *
  simp only at hn
  simp only [hn, if_true, areModifiersPressed_setKeyDown]
  have hamp : AreModifiersPressed ⟨vk, b, c, a, s, w, m⟩ ks =
      AreModifiersPressed ⟨vk, false, c, a, s, w, m⟩ ks := rfl
  have hamp2 : AreModifiersPressed ⟨vk, true, c, a, s, w, m⟩ ks =
      AreModifiersPressed ⟨vk, false, c, a, s, w, m⟩ ks := rfl
  rw [hamp]
  generalize modifierReleased _ k = mr
  cases hA : AreModifiersPressed ⟨vk, false, c, a, s, w, m⟩ ks <;>
    by_cases hk : k = vk <;> cases b <;> cases m <;> cases dn <;> cases up <;> cases mr <;>
    simp [hk, hA, hamp2] at hx2 ⊢

/-- What one call of the hook can do: write nothing and keep `g_isKeyDown`,
write KEY_DOWN from inactive, or write KEY_UP from active.  No other variable
changes. -/
theorem hook_step (g : Globals) (ks : KeyboardState) (e : KbdEvent) :
    (LowLevelKeyboardProc g ks e = (g, [])) ∨
    (g.g_isKeyDown = false ∧
      LowLevelKeyboardProc g ks e = ({ g with g_isKeyDown := true }, [Line.KEY_DOWN])) ∨
    (g.g_isKeyDown = true ∧
      LowLevelKeyboardProc g ks e = ({ g with g_isKeyDown := false }, [Line.KEY_UP])) := by
  by_cases hn : e.nCode = HC_ACTION
  · rw [hook_action g ks e hn]
    cases hb : g.g_isKeyDown <;> simp only [Bool.false_eq_true, if_false, if_true] <;>
      split_ifs <;> simp
  · exact Or.inl (hook_no_action g ks e hn)

/-! ## The tracker: sequences of events -/

theorem runHook_append (g : Globals) (xs ys : List (KbdEvent × KeyboardState)) :
    runHook g (xs ++ ys) =
      ((runHook (runHook g xs).1 ys).1, (runHook g xs).2 ++ (runHook (runHook g xs).1 ys).2) := by
  induction xs generalizing g with
  | nil => simp [runHook]
  | cons x xs ih =>
    obtain ⟨e, ks⟩ := x
    simp [runHook, ih, List.append_assoc]

theorem runHook_single (g : Globals) (e : KbdEvent) (ks : KeyboardState) :
    runHook g [(e, ks)] = LowLevelKeyboardProc g ks e := by
  simp [runHook]

theorem alternates_snoc (out : List Line) (h : Alternates out) :
    Alternates (out ++ [alternatingLine out.length]) := by
  unfold Alternates at *
  rw [List.length_append, List.length_singleton, List.range_succ, List.map_append, ← h]
  rfl

/-- Started inactive, the hook has written an alternating sequence, and
`g_isKeyDown` is TRUE exactly when the number of lines written is odd. -/
theorem runHook_invariant (g : Globals) (h0 : g.g_isKeyDown = false)
    (events : List (KbdEvent × KeyboardState)) :
    Alternates (runHook g events).2 ∧
      (runHook g events).1.g_isKeyDown = decide ((runHook g events).2.length % 2 = 1) := by
  induction events using List.reverseRecOn with
  | nil => simp [runHook, Alternates, h0]
  | append_singleton xs x ih =>
    obtain ⟨e, ks⟩ := x
    obtain ⟨halt, hact⟩ := ih
    rw [runHook_append, runHook_single]
    rcases hook_step (runHook g xs).1 ks e with h | ⟨hb, h⟩ | ⟨hb, h⟩
    · rw [h]; simpa using ⟨halt, hact⟩
    · rw [h]
      have hlen : (runHook g xs).2.length % 2 = 0 := by
        rw [hb] at hact
        have := hact.symm
        simp at this
        omega
      refine ⟨?_, ?_⟩
      · have := alternates_snoc _ halt
        simpa [alternatingLine, hlen] using this
      · simp; omega
    · rw [h]
      have hlen : (runHook g xs).2.length % 2 = 1 := by
        rw [hb] at hact
        simpa using hact.symm
      refine ⟨?_, ?_⟩
      · have := alternates_snoc _ halt
        simpa [alternatingLine, hlen] using this
      · simp; omega

theorem alternates_getLast (out : List Line) (h : Alternates out) :
    out.getLast? = some Line.KEY_DOWN ↔ out.length % 2 = 1 := by
  unfold Alternates at h
  cases hn : out.length with
  | zero =>
    have : out = [] := List.length_eq_zero.mp hn
    simp [this]
  | succ k =>
    rw [hn, List.range_succ, List.map_append] at h
    rw [h]
    simp [alternatingLine]
    omega

/-- C1. Started with `g_isKeyDown = FALSE`, for every descriptor, every
sequence of events and of keyboard states, after each event (after the first
`n` events, for every `n`) the lines written so far alternate KEY_DOWN, KEY_UP,
KEY_DOWN, ... beginning with KEY_DOWN, and `g_isKeyDown` is TRUE exactly when
the last line written so far is KEY_DOWN. -/
theorem output_alternates_and_tracks_state (g : Globals) (h0 : g.g_isKeyDown = false)
    (events : List (KbdEvent × KeyboardState)) (n : Nat) :
    Alternates (runHook g (events.take n)).2 ∧
    ((runHook g (events.take n)).1.g_isKeyDown = true ↔
      (runHook g (events.take n)).2.getLast? = some Line.KEY_DOWN) := by
  obtain ⟨halt, hact⟩ := runHook_invariant g h0 (events.take n)
  refine ⟨halt, ?_⟩
  rw [alternates_getLast _ halt, hact]
  simp


/-- C1 at Ctrl+F11: F11 pressed with Ctrl held, then released. -/
theorem output_alternates_and_tracks_state_witness :
    ctrlF11.g_isKeyDown = false ∧
    Alternates (runHook ctrlF11 ([(keyDown VK_F11, held [VK_CONTROL]),
        (keyUp VK_F11, held [])].take 2)).2 ∧
    ((runHook ctrlF11 ([(keyDown VK_F11, held [VK_CONTROL]),
        (keyUp VK_F11, held [])].take 2)).1.g_isKeyDown = true ↔
      (runHook ctrlF11 ([(keyDown VK_F11, held [VK_CONTROL]),
        (keyUp VK_F11, held [])].take 2)).2.getLast? = some Line.KEY_DOWN) :=
  ⟨rfl, output_alternates_and_tracks_state ctrlF11 rfl _ 2⟩

theorem isDown_iff (e : KbdEvent) :
    e.isDown = true ↔
      e.nCode = HC_ACTION ∧ (e.wParam == WM_KEYDOWN || e.wParam == WM_SYSKEYDOWN) = true := by
  simp [KbdEvent.isDown]

theorem isUp_iff (e : KbdEvent) :
    e.isUp = true ↔
      e.nCode = HC_ACTION ∧ (e.wParam == WM_KEYUP || e.wParam == WM_SYSKEYUP) = true := by
  simp [KbdEvent.isUp]

theorem isDown_not_isUp (e : KbdEvent) (h : e.isDown = true) : e.isUp = false := by
  have := down_not_up e.wParam ((isDown_iff e).1 h).2
  simp [KbdEvent.isUp, this]

theorem modifierReleased_iff (g : Globals) (vk : Nat) :
    modifierReleased g vk = true ↔ isRequiredModifierKey g vk := by
  simp [modifierReleased, isRequiredModifierKey, or_assoc]

/-- Any Down event in the active state writes nothing. -/
theorem down_while_active (g : Globals) (ks : KeyboardState) (e : KbdEvent)
    (hd : e.isDown = true) (ha : g.g_isKeyDown = true) :
    LowLevelKeyboardProc g ks e = (g, []) := by
  have hu := down_not_up e.wParam ((isDown_iff e).1 hd).2
  rw [hook_action g ks e ((isDown_iff e).1 hd).1]
  simp [ha, hu]

/-- Any event that is not a Down event writes nothing in the inactive state. -/
theorem not_down_while_inactive (g : Globals) (ks : KeyboardState) (e : KbdEvent)
    (hd : e.isDown = false) (ha : g.g_isKeyDown = false) :
    LowLevelKeyboardProc g ks e = (g, []) := by
  by_cases hn : e.nCode = HC_ACTION
  · rw [hook_action g ks e hn]
    have : (e.wParam == WM_KEYDOWN || e.wParam == WM_SYSKEYDOWN) = false := by
      simpa [KbdEvent.isDown, hn] using hd
    simp [ha, this]
  · exact hook_no_action g ks e hn

/-- An Up event that releases a required modifier in the active state writes
KEY_UP and deactivates. -/
theorem release_while_active (g : Globals) (ks : KeyboardState) (e : KbdEvent)
    (hu : e.isUp = true) (ha : g.g_isKeyDown = true) (hm : modifierReleased g e.vkCode = true) :
    LowLevelKeyboardProc g ks e = ({ g with g_isKeyDown := false }, [Line.KEY_UP]) := by
  rw [hook_action g ks e ((isUp_iff e).1 hu).1]
  simp [ha, ((isUp_iff e).1 hu).2, hm]

/-- In primary-key mode an Up event on the target key in the active state
writes KEY_UP and deactivates, whatever the keyboard state. -/
theorem target_up_while_active (g : Globals) (ks : KeyboardState) (e : KbdEvent)
    (hmode : g.g_useModifiersOnly = false) (hvk : e.vkCode = g.g_targetVk)
    (hu : e.isUp = true) (ha : g.g_isKeyDown = true) :
    LowLevelKeyboardProc g ks e = ({ g with g_isKeyDown := false }, [Line.KEY_UP]) := by
  rw [hook_action g ks e ((isUp_iff e).1 hu).1]
  simp [ha, ((isUp_iff e).1 hu).2, hmode, hvk]

/-- C2. In primary-key mode, a Down event on the target key received while
inactive with the required modifiers pressed writes exactly KEY_DOWN and
activates; an Up event on the target key received while active writes exactly
KEY_UP and deactivates, for every keyboard state. -/
theorem primary_key_press_and_release (g : Globals) (ks : KeyboardState) (e : KbdEvent)
    (hmode : g.g_useModifiersOnly = false) (hvk : e.vkCode = g.g_targetVk) :
    (e.isDown = true → g.g_isKeyDown = false → AreModifiersPressed g ks = true →
      LowLevelKeyboardProc g ks e = ({ g with g_isKeyDown := true }, [Line.KEY_DOWN])) ∧
    (e.isUp = true → g.g_isKeyDown = true →
      LowLevelKeyboardProc g ks e = ({ g with g_isKeyDown := false }, [Line.KEY_UP])) := by
  constructor
  · intro hd ha hp
    rw [hook_action g ks e ((isDown_iff e).1 hd).1]
    simp [ha, ((isDown_iff e).1 hd).2, hp, hvk]
  · exact fun hu ha => target_up_while_active g ks e hmode hvk hu ha

/-- C2 at Ctrl+F11: the press with Ctrl held, and the release with no key held. -/
theorem primary_key_press_and_release_witness :
    LowLevelKeyboardProc ctrlF11 (held [VK_CONTROL]) (keyDown VK_F11) =
      ({ ctrlF11 with g_isKeyDown := true }, [Line.KEY_DOWN]) ∧
    LowLevelKeyboardProc { ctrlF11 with g_isKeyDown := true } (held []) (keyUp VK_F11) =
      (ctrlF11, [Line.KEY_UP]) :=
  ⟨(primary_key_press_and_release ctrlF11 (held [VK_CONTROL]) (keyDown VK_F11)
      rfl rfl).1 rfl rfl (by decide),
   (primary_key_press_and_release { ctrlF11 with g_isKeyDown := true } (held [])
      (keyUp VK_F11) rfl rfl).2 rfl rfl⟩

/-- C3. Early-modifier-release guard: in the active state an Up event on a key
of a required modifier writes exactly KEY_UP and deactivates, and an Up event
that follows (on the primary key or on any other key) writes nothing. -/
theorem early_modifier_release (g : Globals) (ks ks2 : KeyboardState) (e e2 : KbdEvent)
    (hactive : g.g_isKeyDown = true) (hup : e.isUp = true)
    (hkey : isRequiredModifierKey g e.vkCode)
    (hup2 : e2.isUp = true) :
    LowLevelKeyboardProc g ks e = ({ g with g_isKeyDown := false }, [Line.KEY_UP]) ∧
    LowLevelKeyboardProc { g with g_isKeyDown := false } ks2 e2 =
      ({ g with g_isKeyDown := false }, []) ∧
    runHook g [(e, ks), (e2, ks2)] = ({ g with g_isKeyDown := false }, [Line.KEY_UP]) := by
  have h1 := release_while_active g ks e hup hactive ((modifierReleased_iff g e.vkCode).2 hkey)
  have h2 : LowLevelKeyboardProc { g with g_isKeyDown := false } ks2 e2 =
      ({ g with g_isKeyDown := false }, []) :=
    not_down_while_inactive _ ks2 e2
      (by cases h : e2.isDown
          · rfl
          · rw [isDown_not_isUp e2 h] at hup2; cases hup2) rfl
  refine ⟨h1, h2, ?_⟩
  simp [runHook, h1, h2]

/-- C3 at the descriptor parsed from `Ctrl+F11`, active: Up(Ctrl) then Up(F11) writes one
KEY_UP, at the Ctrl release. -/
theorem early_modifier_release_witness :
    mainParse Globals.initial (cstr "Ctrl+F11") = some ctrlF11 ∧
    runHook { ctrlF11 with g_isKeyDown := true }
        [(keyUp VK_LCONTROL, held [VK_F11]), (keyUp VK_F11, held [])] =
      (ctrlF11, [Line.KEY_UP]) :=
  ⟨by decide,
   (early_modifier_release { ctrlF11 with g_isKeyDown := true } (held [VK_F11]) (held [])
    (keyUp VK_LCONTROL) (keyUp VK_F11) rfl rfl (Or.inl ⟨rfl, Or.inr (Or.inl rfl)⟩) rfl).2.2⟩

/-- C5. Idempotent emission: a Down event received while active, and an Up
event received while inactive, write nothing and leave every variable as it
was. -/
theorem idempotent_emission (g : Globals) (ks : KeyboardState) (e : KbdEvent) :
    (e.isDown = true → g.g_isKeyDown = true → LowLevelKeyboardProc g ks e = (g, [])) ∧
    (e.isUp = true → g.g_isKeyDown = false → LowLevelKeyboardProc g ks e = (g, [])) := by
  constructor
  · exact fun hd ha => down_while_active g ks e hd ha
  · intro hu ha
    refine not_down_while_inactive g ks e ?_ ha
    cases h : e.isDown
    · rfl
    · rw [isDown_not_isUp e h] at hu; cases hu

/-- C5 at Ctrl+F11: a key-repeat Down while active, an Up while inactive. -/
theorem idempotent_emission_witness :
    LowLevelKeyboardProc { ctrlF11 with g_isKeyDown := true } (held [VK_CONTROL])
        (keyDown VK_F11) = ({ ctrlF11 with g_isKeyDown := true }, []) ∧
    LowLevelKeyboardProc ctrlF11 (held []) (keyUp VK_F11) = (ctrlF11, []) :=
  ⟨(idempotent_emission _ _ _).1 rfl rfl, (idempotent_emission _ _ _).2 rfl rfl⟩

/-- In the inactive state KEY_DOWN is written only with the required
modifiers pressed. -/
theorem key_down_needs_modifiers (g : Globals) (ks : KeyboardState) (e : KbdEvent)
    (h : Line.KEY_DOWN ∈ (LowLevelKeyboardProc g ks e).2) :
    g.g_isKeyDown = false ∧ e.isDown = true ∧ AreModifiersPressed g ks = true := by
  by_cases hn : e.nCode = HC_ACTION
  · rw [hook_action g ks e hn] at h
    cases ha : g.g_isKeyDown
    · simp only [ha, Bool.false_eq_true, if_false] at h
      split_ifs at h with hc
      · simp only [Bool.and_eq_true] at hc
        exact ⟨rfl, (isDown_iff e).2 ⟨hn, hc.1.1⟩, hc.1.2⟩
      · simp at h
    · simp only [ha, if_true] at h
      split_ifs at h <;> simp at h
  · rw [hook_no_action g ks e hn] at h
    simp at h

theorem ctrlShiftOnly_pressed (ks : KeyboardState) :
    AreModifiersPressed ctrlShiftOnly ks = (keyHeld ks VK_CONTROL && keyHeld ks VK_SHIFT) := by
  cases h1 : keyHeld ks VK_CONTROL <;> cases h2 : keyHeld ks VK_SHIFT <;>
    simp [AreModifiersPressed, ctrlShiftOnly, Globals.initial, h1, h2]

/-- C4. For the modifiers-only descriptor Ctrl+Shift (the globals `main`
computes for that spec): an event writes KEY_DOWN only if the keyboard reports
both Ctrl and Shift held; a sequence of events during which the two are never
held together writes nothing from the inactive state; a Down event received
while inactive with both held writes KEY_DOWN and activates; and in the active
state an Up event on a Ctrl key or on a Shift key writes KEY_UP and
deactivates. -/
theorem ctrl_shift_modifiers_only :
    mainParse Globals.initial (cstr "Ctrl+Shift") = some ctrlShiftOnly ∧
    (∀ (b : Bool) (ks : KeyboardState) (e : KbdEvent),
      Line.KEY_DOWN ∈ (LowLevelKeyboardProc { ctrlShiftOnly with g_isKeyDown := b } ks e).2 →
        keyHeld ks VK_CONTROL = true ∧ keyHeld ks VK_SHIFT = true) ∧
    (∀ events : List (KbdEvent × KeyboardState),
      (∀ p ∈ events, ¬ (keyHeld p.2 VK_CONTROL = true ∧ keyHeld p.2 VK_SHIFT = true)) →
        runHook ctrlShiftOnly events = (ctrlShiftOnly, [])) ∧
    (∀ (ks : KeyboardState) (e : KbdEvent), e.isDown = true →
      keyHeld ks VK_CONTROL = true → keyHeld ks VK_SHIFT = true →
        LowLevelKeyboardProc ctrlShiftOnly ks e =
          ({ ctrlShiftOnly with g_isKeyDown := true }, [Line.KEY_DOWN])) ∧
    (∀ (ks : KeyboardState) (e : KbdEvent), e.isUp = true →
      e.vkCode ∈ [VK_CONTROL, VK_LCONTROL, VK_RCONTROL, VK_SHIFT, VK_LSHIFT, VK_RSHIFT] →
        LowLevelKeyboardProc { ctrlShiftOnly with g_isKeyDown := true } ks e =
          (ctrlShiftOnly, [Line.KEY_UP])) := by
  refine ⟨by decide, ?_, ?_, ?_, ?_⟩
  · intro b ks e h
    have := (key_down_needs_modifiers _ ks e h).2.2
    rw [areModifiersPressed_setKeyDown, ctrlShiftOnly_pressed] at this
    simpa using this
  · intro events
    induction events with
    | nil => intro _; rfl
    | cons p rest ih =>
      intro hall
      obtain ⟨e, ks⟩ := p
      have hp := hall (e, ks) (List.mem_cons_self _ _)
      have hstep : LowLevelKeyboardProc ctrlShiftOnly ks e = (ctrlShiftOnly, []) := by
        rcases hook_step ctrlShiftOnly ks e with h | ⟨_, h⟩ | ⟨ha, _⟩
        · exact h
        · exfalso
          have hk := key_down_needs_modifiers ctrlShiftOnly ks e (by rw [h]; simp)
          rw [ctrlShiftOnly_pressed] at hk
          exact hp (by simpa using hk.2.2)
        · cases ha
      simp only [runHook, hstep, List.nil_append]
      exact ih (fun q hq => hall q (List.mem_cons_of_mem _ hq))
  · intro ks e hd h1 h2
    rw [hook_action ctrlShiftOnly ks e ((isDown_iff e).1 hd).1, ctrlShiftOnly_pressed]
    simp [ctrlShiftOnly, Globals.initial, ((isDown_iff e).1 hd).2, h1, h2]
  · intro ks e hu hk
    have hm : modifierReleased { ctrlShiftOnly with g_isKeyDown := true } e.vkCode = true := by
      simp only [List.mem_cons, List.mem_singleton, List.not_mem_nil, or_false] at hk
      rw [modifierReleased_iff]
      rcases hk with h | h | h | h | h | h
      · exact Or.inl ⟨rfl, Or.inl h⟩
      · exact Or.inl ⟨rfl, Or.inr (Or.inl h)⟩
      · exact Or.inl ⟨rfl, Or.inr (Or.inr h)⟩
      · exact Or.inr (Or.inr (Or.inl ⟨rfl, Or.inl h⟩))
      · exact Or.inr (Or.inr (Or.inl ⟨rfl, Or.inr (Or.inl h)⟩))
      · exact Or.inr (Or.inr (Or.inl ⟨rfl, Or.inr (Or.inr h)⟩))
    exact release_while_active _ ks e hu rfl hm

/-- C4 at concrete events: Ctrl alone pressed and released, Shift pressed with Ctrl held,
then Shift released. -/
theorem ctrl_shift_modifiers_only_witness :
    runHook ctrlShiftOnly [(keyDown VK_LCONTROL, held [VK_CONTROL]),
        (keyUp VK_LCONTROL, held [])] = (ctrlShiftOnly, []) ∧
    LowLevelKeyboardProc ctrlShiftOnly (held [VK_CONTROL, VK_SHIFT]) (keyDown VK_LSHIFT) =
      ({ ctrlShiftOnly with g_isKeyDown := true }, [Line.KEY_DOWN]) ∧
    LowLevelKeyboardProc { ctrlShiftOnly with g_isKeyDown := true } (held [VK_CONTROL])
      (keyUp VK_RSHIFT) = (ctrlShiftOnly, [Line.KEY_UP]) :=
  ⟨ctrl_shift_modifiers_only.2.2.1 _ (by decide),
   ctrl_shift_modifiers_only.2.2.2.1 _ _ rfl (by decide) (by decide),
   ctrl_shift_modifiers_only.2.2.2.2 _ _ rfl (by decide)⟩

/-! ## One press-release cycle of the primary key -/

theorem alternating_counts (n : Nat) :
    ((List.range n).map alternatingLine).count Line.KEY_DOWN = (n + 1) / 2 ∧
    ((List.range n).map alternatingLine).count Line.KEY_UP = n / 2 := by
  induction n with
  | zero => simp
  | succ k ih =>
    rw [List.range_succ, List.map_append, List.count_append, List.count_append, ih.1, ih.2]
    rcases Nat.mod_two_eq_zero_or_one k with h | h
    · simp [alternatingLine, h]; omega
    · simp [alternatingLine, h]; omega

theorem alternates_getLast_up (out : List Line) (h : Alternates out) (hne : out ≠ [])
    (heven : out.length % 2 = 0) : out.getLast? = some Line.KEY_UP := by
  unfold Alternates at h
  cases hn : out.length with
  | zero => exact absurd (List.length_eq_zero.mp hn) hne
  | succ k =>
    rw [hn, List.range_succ, List.map_append] at h
    rw [h]
    have : k % 2 = 1 := by omega
    simp [alternatingLine, this]

/-- The hook changes no variable other than `g_isKeyDown`. -/
theorem runHook_globals (g : Globals) (events : List (KbdEvent × KeyboardState)) :
    (runHook g events).1 = { g with g_isKeyDown := (runHook g events).1.g_isKeyDown } := by
  induction events generalizing g with
  | nil => simp [runHook]
  | cons p rest ih =>
    obtain ⟨e, ks⟩ := p
    simp only [runHook]
    rcases hook_step g ks e with h | ⟨_, h⟩ | ⟨_, h⟩ <;> rw [h] <;>
      exact (ih _).trans rfl

theorem noReactivation_setKeyDown (g : Globals) (b released : Bool)
    (mid : List (KbdEvent × KeyboardState)) :
    noReactivation { g with g_isKeyDown := b } released mid = noReactivation g released mid := by
  induction mid generalizing released with
  | nil => rfl
  | cons p rest ih =>
    obtain ⟨e, ks⟩ := p
    simp only [noReactivation, ih]
    rfl

/-- Inactive in primary-key mode, the tracker stays silent as long as no Down
of the primary key arrives with the required modifiers pressed. -/
theorem silent_while_inactive (g : Globals) (hmode : g.g_useModifiersOnly = false)
    (h0 : g.g_isKeyDown = false) (mid : List (KbdEvent × KeyboardState))
    (hnr : noReactivation g true mid = true) : runHook g mid = (g, []) := by
  induction mid with
  | nil => rfl
  | cons p rest ih =>
    obtain ⟨e, ks⟩ := p
    have hstep : LowLevelKeyboardProc g ks e = (g, []) ∧ noReactivation g true rest = true := by
      simp only [noReactivation, Bool.true_and, Bool.true_or] at hnr
      cases hd : e.isDown
      · simp only [hd, Bool.false_and, Bool.false_eq_true, if_false] at hnr
        exact ⟨not_down_while_inactive g ks e hd h0, hnr⟩
      · have hn := ((isDown_iff e).1 hd).1
        rw [hook_action g ks e hn]
        by_cases hk : e.vkCode = g.g_targetVk
        · simp only [hd, hk, beq_self_eq_true, Bool.and_self, if_true, Bool.and_eq_true,
            Bool.not_eq_true'] at hnr
          simp [h0, hnr.1, hnr.2]
        · have hk2 : (e.vkCode == g.g_targetVk) = false := by simpa using hk
          simp only [hd, hk2, Bool.and_false, Bool.false_eq_true, if_false] at hnr
          simp [h0, hmode, hk2, hnr]
    simp only [runHook, hstep.1, List.nil_append]
    exact ih hstep.2

/-- Active in primary-key mode, with no Up of the primary key among the
events and no re-activation: either nothing is written and the tracker stays
active, or exactly KEY_UP is written and it ends inactive. -/
theorem active_until_release (g : Globals) (hmode : g.g_useModifiersOnly = false)
    (ha : g.g_isKeyDown = true) (mid : List (KbdEvent × KeyboardState))
    (hmid : ∀ p ∈ mid, ¬ (p.1.isUp = true ∧ p.1.vkCode = g.g_targetVk))
    (hnr : noReactivation g false mid = true) :
    runHook g mid = (g, []) ∨
    runHook g mid = ({ g with g_isKeyDown := false }, [Line.KEY_UP]) := by
  induction mid with
  | nil => exact Or.inl rfl
  | cons p rest ih =>
    obtain ⟨e, ks⟩ := p
    have hp := hmid (e, ks) (List.mem_cons_self _ _)
    have hrest : ∀ q ∈ rest, ¬ (q.1.isUp = true ∧ q.1.vkCode = g.g_targetVk) :=
      fun q hq => hmid q (List.mem_cons_of_mem _ hq)
    simp only [noReactivation, Bool.false_and, Bool.not_false, Bool.true_and,
      Bool.false_or] at hnr
    cases hd : e.isDown
    · simp only [hd, Bool.false_and, Bool.false_eq_true, if_false] at hnr
      cases hu : e.isUp
      · -- neither Down nor Up: nothing happens
        have hstep : LowLevelKeyboardProc g ks e = (g, []) := by
          by_cases hn : e.nCode = HC_ACTION
          · rw [hook_action g ks e hn]
            have : (e.wParam == WM_KEYUP || e.wParam == WM_SYSKEYUP) = false := by
              simpa [KbdEvent.isUp, hn] using hu
            simp [ha, this]
          · exact hook_no_action g ks e hn
        simp only [hu, Bool.false_and] at hnr
        simp only [runHook, hstep, List.nil_append]
        exact ih hrest hnr
      · have hk : (e.vkCode == g.g_targetVk) = false := by
          simpa using fun h => hp ⟨hu, h⟩
        cases hm : modifierReleased g e.vkCode
        · -- an Up of some other key: nothing happens
          have hstep : LowLevelKeyboardProc g ks e = (g, []) := by
            rw [hook_action g ks e ((isUp_iff e).1 hu).1]
            simp [ha, hm, hmode, hk]
          simp only [hu, hm, Bool.and_false] at hnr
          simp only [runHook, hstep, List.nil_append]
          exact ih hrest hnr
        · -- a required modifier is released: KEY_UP, then silence
          have hstep := release_while_active g ks e hu ha hm
          simp only [hu, hm, Bool.and_self] at hnr
          have hs := silent_while_inactive { g with g_isKeyDown := false } hmode rfl rest
            (by rw [noReactivation_setKeyDown]; exact hnr)
          right
          simp only [runHook, hstep, hs, List.append_nil]
    · -- a Down event while active: nothing happens
      have hstep := down_while_active g ks e hd ha
      have hnr2 : noReactivation g false rest = true := by
        have hu := isDown_not_isUp e hd
        by_cases hk : e.vkCode = g.g_targetVk
        · simpa [hd, hk] using hnr
        · have hk2 : (e.vkCode == g.g_targetVk) = false := by simpa using hk
          simpa [hd, hk2, hu] using hnr
      simp only [runHook, hstep, List.nil_append]
      exact ih hrest hnr2

/-- Inactive in primary-key mode, a Down of the primary key that arrives with
the required modifiers pressed makes the tracker write KEY_DOWN. -/
theorem reactivation_while_inactive (g : Globals) (hmode : g.g_useModifiersOnly = false)
    (h0 : g.g_isKeyDown = false) (mid : List (KbdEvent × KeyboardState))
    (hnr : noReactivation g true mid = false) : Line.KEY_DOWN ∈ (runHook g mid).2 := by
  induction mid with
  | nil => simp [noReactivation] at hnr
  | cons p rest ih =>
    obtain ⟨e, ks⟩ := p
    simp only [noReactivation, Bool.true_and, Bool.true_or] at hnr
    simp only [runHook, List.mem_append]
    by_cases hc : (e.isDown && e.vkCode == g.g_targetVk) = true
    · simp only [hc, if_true] at hnr
      have hc2 := hc
      simp only [Bool.and_eq_true, beq_iff_eq] at hc2
      cases hp : AreModifiersPressed g ks
      · simp only [hp, Bool.not_false, Bool.true_and] at hnr
        have hstep : LowLevelKeyboardProc g ks e = (g, []) := by
          rw [hook_action g ks e ((isDown_iff e).1 hc2.1).1]
          simp [h0, hp]
        rw [hstep]
        exact Or.inr (ih hnr)
      · left
        rw [hook_action g ks e ((isDown_iff e).1 hc2.1).1]
        simp [h0, hp, ((isDown_iff e).1 hc2.1).2, hc2.2]
    · simp only [hc, if_false] at hnr
      have hstep : LowLevelKeyboardProc g ks e = (g, []) := by
        cases hd : e.isDown
        · exact not_down_while_inactive g ks e hd h0
        · have hk : (e.vkCode == g.g_targetVk) = false := by simpa [hd] using hc
          rw [hook_action g ks e ((isDown_iff e).1 hd).1]
          simp [h0, hmode, hk]
      rw [hstep]
      exact Or.inr (ih hnr)

/-- Active in primary-key mode, with no Up of the primary key among the
events: a re-activation makes the tracker write a further KEY_DOWN. -/
theorem reactivation_while_active (g : Globals) (hmode : g.g_useModifiersOnly = false)
    (ha : g.g_isKeyDown = true) (mid : List (KbdEvent × KeyboardState))
    (hmid : ∀ p ∈ mid, ¬ (p.1.isUp = true ∧ p.1.vkCode = g.g_targetVk))
    (hnr : noReactivation g false mid = false) : Line.KEY_DOWN ∈ (runHook g mid).2 := by
  induction mid with
  | nil => simp [noReactivation] at hnr
  | cons p rest ih =>
    obtain ⟨e, ks⟩ := p
    have hp := hmid (e, ks) (List.mem_cons_self _ _)
    have hrest : ∀ q ∈ rest, ¬ (q.1.isUp = true ∧ q.1.vkCode = g.g_targetVk) :=
      fun q hq => hmid q (List.mem_cons_of_mem _ hq)
    simp only [noReactivation, Bool.false_and, Bool.not_false, Bool.true_and,
      Bool.false_or] at hnr
    simp only [runHook, List.mem_append]
    cases hd : e.isDown
    · simp only [hd, Bool.false_and, Bool.false_eq_true, if_false] at hnr
      cases hum : (e.isUp && modifierReleased g e.vkCode)
      · have hstep : LowLevelKeyboardProc g ks e = (g, []) := by
          by_cases hn : e.nCode = HC_ACTION
          · rw [hook_action g ks e hn]
            cases hu : e.isUp
            · have : (e.wParam == WM_KEYUP || e.wParam == WM_SYSKEYUP) = false := by
                simpa [KbdEvent.isUp, hn] using hu
              simp [ha, this]
            · have hk : (e.vkCode == g.g_targetVk) = false := by
                simpa using fun h => hp ⟨hu, h⟩
              have hm : modifierReleased g e.vkCode = false := by simpa [hu] using hum
              simp [ha, hm, hmode, hk]
          · exact hook_no_action g ks e hn
        rw [hum] at hnr
        rw [hstep]
        exact Or.inr (ih hrest hnr)
      · simp only [Bool.and_eq_true] at hum
        rw [release_while_active g ks e hum.1 ha hum.2]
        simp only [hum.1, hum.2, Bool.and_self] at hnr
        right
        exact reactivation_while_inactive { g with g_isKeyDown := false } hmode rfl rest
          (by rw [noReactivation_setKeyDown]; exact hnr)
    · rw [down_while_active g ks e hd ha]
      have hnr2 : noReactivation g false rest = false := by
        have hu := isDown_not_isUp e hd
        by_cases hk : e.vkCode = g.g_targetVk
        · simpa [hd, hk] using hnr
        · have hk2 : (e.vkCode == g.g_targetVk) = false := by simpa using hk
          simpa [hd, hk2, hu] using hnr
      exact Or.inr (ih hrest hnr2)

/-- C6 (amended). In primary-key mode, for a sequence of events that starts
with an event that writes KEY_DOWN (a Down of the primary key), ends with the
first following Up of the primary key, and has no Up of the primary key in
between (key-repeat Downs of the primary key, Downs and Ups of modifier keys):
the output alternates KEY_DOWN, KEY_UP, ..., starts with KEY_DOWN, ends with
KEY_UP, has as many KEY_DOWN as KEY_UP lines, and leaves the tracker inactive.
It is exactly one KEY_DOWN and one KEY_UP if and only if no key-repeat Down of
the primary key arrives, after an Up of a required modifier key, with all
required modifiers pressed. -/
theorem press_cycle_pairs (g : Globals) (hmode : g.g_useModifiersOnly = false)
    (e0 eN : KbdEvent) (ks0 ksN : KeyboardState) (mid : List (KbdEvent × KeyboardState))
    (hw0 : (LowLevelKeyboardProc g ks0 e0).2 = [Line.KEY_DOWN])
    (hmid : ∀ p ∈ mid, ¬ (p.1.isUp = true ∧ p.1.vkCode = g.g_targetVk))
    (huN : eN.isUp = true) (hvN : eN.vkCode = g.g_targetVk) :
    Alternates (runHook g ((e0, ks0) :: (mid ++ [(eN, ksN)]))).2 ∧
    (runHook g ((e0, ks0) :: (mid ++ [(eN, ksN)]))).2.head? = some Line.KEY_DOWN ∧
    (runHook g ((e0, ks0) :: (mid ++ [(eN, ksN)]))).2.getLast? = some Line.KEY_UP ∧
    (runHook g ((e0, ks0) :: (mid ++ [(eN, ksN)]))).2.count Line.KEY_DOWN =
      (runHook g ((e0, ks0) :: (mid ++ [(eN, ksN)]))).2.count Line.KEY_UP ∧
    (runHook g ((e0, ks0) :: (mid ++ [(eN, ksN)]))).1.g_isKeyDown = false ∧
    ((runHook g ((e0, ks0) :: (mid ++ [(eN, ksN)]))).2 = [Line.KEY_DOWN, Line.KEY_UP] ↔
      noReactivation g false mid = true) := by
  -- the first event
  have h0 : g.g_isKeyDown = false := by
    rcases hook_step g ks0 e0 with h | ⟨hb, _⟩ | ⟨_, h⟩
    · rw [h] at hw0; cases hw0
    · exact hb
    · rw [h] at hw0; cases hw0
  have hfirst : LowLevelKeyboardProc g ks0 e0 = ({ g with g_isKeyDown := true }, [Line.KEY_DOWN]) := by
    rcases hook_step g ks0 e0 with h | ⟨_, h⟩ | ⟨hb, _⟩
    · rw [h] at hw0; cases hw0
    · exact h
    · rw [hb] at h0; cases h0
  -- the state after the events in between
  have hgm := runHook_globals { g with g_isKeyDown := true } mid
  -- the last event leaves the tracker inactive
  have hlast : (LowLevelKeyboardProc (runHook { g with g_isKeyDown := true } mid).1 ksN eN).1.g_isKeyDown
      = false := by
    rw [hook_action _ ksN eN ((isUp_iff eN).1 huN).1]
    cases hb : (runHook { g with g_isKeyDown := true } mid).1.g_isKeyDown
    · have hdn := isDown_not_isUp eN
      cases hdN : eN.isDown
      · have : (eN.wParam == WM_KEYDOWN || eN.wParam == WM_SYSKEYDOWN) = false := by
          simpa [KbdEvent.isDown, ((isUp_iff eN).1 huN).1] using hdN
        simp [this, hb]
      · rw [hdn hdN] at huN; cases huN
    · have hk : eN.vkCode = (runHook { g with g_isKeyDown := true } mid).1.g_targetVk := by
        rw [hgm]; exact hvN
      have hm : (runHook { g with g_isKeyDown := true } mid).1.g_useModifiersOnly = false := by
        rw [hgm]; exact hmode
      simp [((isUp_iff eN).1 huN).2, hk, hm]
  have hout : runHook g ((e0, ks0) :: (mid ++ [(eN, ksN)])) =
      ((LowLevelKeyboardProc (runHook { g with g_isKeyDown := true } mid).1 ksN eN).1,
        Line.KEY_DOWN :: ((runHook { g with g_isKeyDown := true } mid).2 ++
          (LowLevelKeyboardProc (runHook { g with g_isKeyDown := true } mid).1 ksN eN).2)) := by
    rw [runHook, hfirst, runHook_append, runHook_single]
    rfl
  obtain ⟨halt, hact⟩ := runHook_invariant g h0 ((e0, ks0) :: (mid ++ [(eN, ksN)]))
  have hfinal : (runHook g ((e0, ks0) :: (mid ++ [(eN, ksN)]))).1.g_isKeyDown = false := by
    rw [hout]; exact hlast
  have heven : (runHook g ((e0, ks0) :: (mid ++ [(eN, ksN)]))).2.length % 2 = 0 := by
    rw [hfinal] at hact
    have := hact.symm
    simp at this
    omega
  have hne : (runHook g ((e0, ks0) :: (mid ++ [(eN, ksN)]))).2 ≠ [] := by
    rw [hout]; simp
  refine ⟨halt, by rw [hout]; rfl, alternates_getLast_up _ halt hne heven, ?_, hfinal, ?_⟩
  · unfold Alternates at halt
    rw [halt, (alternating_counts _).1, (alternating_counts _).2]
    omega
  · constructor
    · intro hpair
      by_contra hnr
      have hnr2 : noReactivation { g with g_isKeyDown := true } false mid = false := by
        rw [noReactivation_setKeyDown]; simpa using hnr
      have hmem := reactivation_while_active { g with g_isKeyDown := true } hmode rfl mid hmid hnr2
      rw [hout] at hpair
      simp only [List.cons.injEq, true_and] at hpair
      have hsub : (runHook { g with g_isKeyDown := true } mid).2 <+: [Line.KEY_UP] :=
        ⟨_, hpair⟩
      have := (List.IsPrefix.subset hsub) hmem
      simp at this
    · intro hnr
      have hnr2 : noReactivation { g with g_isKeyDown := true } false mid = true := by
        rw [noReactivation_setKeyDown]; exact hnr
      rw [hout]
      rcases active_until_release { g with g_isKeyDown := true } hmode rfl mid hmid hnr2 with h | h
      · rw [h]
        have := target_up_while_active { g with g_isKeyDown := true } ksN eN hmode hvN huN rfl
        rw [this]; rfl
      · rw [h]
        have := not_down_while_inactive { g with g_isKeyDown := false } ksN eN
          (by cases hd : eN.isDown
              · rfl
              · rw [isDown_not_isUp eN hd] at huN; cases huN) rfl
        rw [this]; rfl

/-- C6 (counterexample). Descriptor Ctrl+F11: F11 is pressed with Ctrl held,
Ctrl is released and pressed again while F11 stays held, F11 repeats, F11 is
released.  Every event in between is a key-repeat Down of the primary key or a
Down or Up of a modifier key, and the hook writes two KEY_DOWN and two KEY_UP
lines. -/
theorem press_cycle_two_pairs :
    ctrlF11.g_useModifiersOnly = false ∧ ctrlF11.g_targetVk ≠ 0 ∧
    (keyDown VK_F11).isDown = true ∧ (keyDown VK_F11).vkCode = ctrlF11.g_targetVk ∧
    (LowLevelKeyboardProc ctrlF11 (held [VK_CONTROL, VK_LCONTROL]) (keyDown VK_F11)).2 =
      [Line.KEY_DOWN] ∧
    ([(keyUp VK_LCONTROL, held [VK_F11]),
      (keyDown VK_LCONTROL, held [VK_F11]),
      (keyDown VK_F11, held [VK_CONTROL, VK_LCONTROL, VK_F11])].all
        (fun p => whileHeldEvent ctrlF11 p.1)) = true ∧
    (keyUp VK_F11).isUp = true ∧ (keyUp VK_F11).vkCode = ctrlF11.g_targetVk ∧
    (runHook ctrlF11
      ((keyDown VK_F11, held [VK_CONTROL, VK_LCONTROL]) ::
        ([(keyUp VK_LCONTROL, held [VK_F11]),
          (keyDown VK_LCONTROL, held [VK_F11]),
          (keyDown VK_F11, held [VK_CONTROL, VK_LCONTROL, VK_F11])] ++
         [(keyUp VK_F11, held [VK_CONTROL, VK_LCONTROL])]))).2 =
      [Line.KEY_DOWN, Line.KEY_UP, Line.KEY_DOWN, Line.KEY_UP] ∧
    (runHook ctrlF11
      ((keyDown VK_F11, held [VK_CONTROL, VK_LCONTROL]) ::
        ([(keyUp VK_LCONTROL, held [VK_F11]),
          (keyDown VK_LCONTROL, held [VK_F11]),
          (keyDown VK_F11, held [VK_CONTROL, VK_LCONTROL, VK_F11])] ++
         [(keyUp VK_F11, held [VK_CONTROL, VK_LCONTROL])]))).2.count Line.KEY_DOWN ≠ 1 := by
  decide

/-- C6 (amended) at Ctrl+F11: Ctrl is released early and F11 repeats without Ctrl; one KEY_DOWN
and one KEY_UP are written. -/
theorem press_cycle_pairs_witness :
    (runHook ctrlF11
      ((keyDown VK_F11, held [VK_CONTROL, VK_LCONTROL]) ::
        ([(keyUp VK_LCONTROL, held [VK_F11]),
          (keyDown VK_F11, held [VK_F11])] ++
         [(keyUp VK_F11, held [])]))).2 = [Line.KEY_DOWN, Line.KEY_UP] :=
  (press_cycle_pairs ctrlF11 rfl (keyDown VK_F11) (keyUp VK_F11)
    (held [VK_CONTROL, VK_LCONTROL]) (held [])
    [(keyUp VK_LCONTROL, held [VK_F11]), (keyDown VK_F11, held [VK_F11])]
    (by decide) (by decide) rfl rfl).2.2.2.2.2.2 (by decide)

/-! ## The parser: tokens -/

theorem strncpyBuffer_eq (s : List Nat) (h0 : 0 ∉ s) (hlen : s.length ≤ 255) :
    strncpyBuffer s = s := by
  unfold strncpyBuffer
  have : s.takeWhile (fun c => c != 0) = s := by
    rw [List.takeWhile_eq_self_iff]
    intro c hc
    have : c ≠ 0 := fun h => h0 (h ▸ hc)
    simpa using this
  rw [this, List.take_of_length_le hlen]

theorem splitPlus_ne_nil (s : List Nat) : splitPlus s ≠ [] := by
  cases s with
  | nil => simp [splitPlus]
  | cons c cs =>
    unfold splitPlus
    split_ifs
    · simp
    · split <;> simp

theorem splitPlus_append (t rest : List Nat) (ht : 43 ∉ t) :
    splitPlus (t ++ 43 :: rest) = t :: splitPlus rest := by
  induction t with
  | nil => simp [splitPlus]
  | cons c cs ih =>
    have hc : c ≠ 43 := fun h => ht (h ▸ List.mem_cons_self _ _)
    have hcs : 43 ∉ cs := fun h => ht (List.mem_cons_of_mem _ h)
    rw [List.cons_append, splitPlus, ih hcs]
    simp [hc]

theorem splitPlus_of_no_plus (t : List Nat) (ht : 43 ∉ t) : splitPlus t = [t] := by
  induction t with
  | nil => simp [splitPlus]
  | cons c cs ih =>
    have hc : c ≠ 43 := fun h => ht (h ▸ List.mem_cons_self _ _)
    have hcs : 43 ∉ cs := fun h => ht (List.mem_cons_of_mem _ h)
    rw [splitPlus, ih hcs]
    simp [hc]

theorem joinPlus_cons_cons (t u : List Nat) (us : List (List Nat)) :
    joinPlus (t :: u :: us) = t ++ 43 :: joinPlus (u :: us) := rfl

theorem splitPlus_joinPlus (ts : List (List Nat)) (hne : ts ≠ [])
    (hplus : ∀ t ∈ ts, 43 ∉ t) : splitPlus (joinPlus ts) = ts := by
  induction ts with
  | nil => exact absurd rfl hne
  | cons t rest ih =>
    cases rest with
    | nil => simpa [joinPlus] using splitPlus_of_no_plus t (hplus t (List.mem_cons_self _ _))
    | cons u us =>
      rw [joinPlus_cons_cons, splitPlus_append t _ (hplus t (List.mem_cons_self _ _)),
        ih (by simp) (fun x hx => hplus x (List.mem_cons_of_mem _ hx))]

theorem strtokTokens_joinPlus (ts : List (List Nat)) (hne : ts ≠ [])
    (hplus : ∀ t ∈ ts, 43 ∉ t) (hnonempty : ∀ t ∈ ts, t ≠ []) :
    strtokTokens (joinPlus ts) = ts := by
  unfold strtokTokens
  rw [splitPlus_joinPlus ts hne hplus, List.filter_eq_self]
  intro t ht
  have := hnonempty t ht
  cases t with
  | nil => exact absurd rfl this
  | cons _ _ => rfl

theorem mem_joinPlus (c : Nat) (ts : List (List Nat)) (h : c ∈ joinPlus ts) :
    c = 43 ∨ ∃ t ∈ ts, c ∈ t := by
  induction ts with
  | nil => simp [joinPlus] at h
  | cons t rest ih =>
    cases rest with
    | nil => exact Or.inr ⟨t, List.mem_cons_self _ _, by simpa [joinPlus] using h⟩
    | cons u us =>
      rw [joinPlus_cons_cons, List.mem_append, List.mem_cons] at h
      rcases h with h | h | h
      · exact Or.inr ⟨t, List.mem_cons_self _ _, h⟩
      · exact Or.inl h
      · rcases ih h with h | ⟨x, hx, hc⟩
        · exact Or.inl h
        · exact Or.inr ⟨x, List.mem_cons_of_mem _ hx, hc⟩

/-! ## The parser: specs made of names of the tables -/

theorem modifierNames_facts : ∀ m ∈ modifierNames,
    isCtrlName (trimToken m) = decide (m ∈ ctrlNames) ∧
    isAltName (trimToken m) = decide (m ∈ altNames) ∧
    isShiftName (trimToken m) = decide (m ∈ shiftNames) ∧
    isWinName (trimToken m) = decide (m ∈ winNames) ∧
    ((isCtrlName (trimToken m) && !isAltName (trimToken m) && !isShiftName (trimToken m) &&
        !isWinName (trimToken m)) ||
     (!isCtrlName (trimToken m) && isAltName (trimToken m) && !isShiftName (trimToken m) &&
        !isWinName (trimToken m)) ||
     (!isCtrlName (trimToken m) && !isAltName (trimToken m) && isShiftName (trimToken m) &&
        !isWinName (trimToken m)) ||
     (!isCtrlName (trimToken m) && !isAltName (trimToken m) && !isShiftName (trimToken m) &&
        isWinName (trimToken m))) = true ∧
    43 ∉ m ∧ 0 ∉ m ∧ m ≠ [] := by
  decide

set_option maxRecDepth 100000 in
theorem keyNames_facts : ∀ k ∈ keyNames,
    isCtrlName (trimToken k) = false ∧ isAltName (trimToken k) = false ∧
    isShiftName (trimToken k) = false ∧ isWinName (trimToken k) = false ∧
    trimToken k = k ∧ ParseKeyCode k ≠ 0 ∧ 43 ∉ k ∧ 0 ∉ k ∧ k ≠ [] := by
  decide

/-- A name of the modifier-name table sets its flag and nothing else. -/
theorem parseToken_modifier (m : List Nat) (hm : m ∈ modifierNames) (st : Globals × Nat) :
    parseToken st m =
      ({ st.1 with
          g_requireCtrl := st.1.g_requireCtrl || decide (m ∈ ctrlNames),
          g_requireAlt := st.1.g_requireAlt || decide (m ∈ altNames),
          g_requireShift := st.1.g_requireShift || decide (m ∈ shiftNames),
          g_requireWin := st.1.g_requireWin || decide (m ∈ winNames) }, st.2) := by
  obtain ⟨h1, h2, h3, h4, hone, -⟩ := modifierNames_facts m hm
  unfold parseToken
  simp only []
  rw [h1, h2, h3, h4] at hone ⊢
  obtain ⟨⟨vk, b, c, a, s, w, mo⟩, v⟩ := st
  generalize decide (m ∈ ctrlNames) = x1 at *
  generalize decide (m ∈ altNames) = x2 at *
  generalize decide (m ∈ shiftNames) = x3 at *
  generalize decide (m ∈ winNames) = x4 at *
  cases x1 <;> cases x2 <;> cases x3 <;> cases x4 <;> simp at hone ⊢

/-- A recognised key name is passed to `ParseKeyCode`. -/
theorem parseToken_key (k : List Nat) (hk : k ∈ keyNames) (st : Globals × Nat) :
    parseToken st k = (st.1, ParseKeyCode k) := by
  obtain ⟨h1, h2, h3, h4, h5, -⟩ := keyNames_facts k hk
  rw [h5] at h1 h2 h3 h4
  unfold parseToken
  simp only [h1, h2, h3, h4, h5, Bool.false_eq_true, if_false]

theorem foldl_parseToken_modifiers (mods : List (List Nat))
    (hmods : ∀ m ∈ mods, m ∈ modifierNames) (st : Globals × Nat) :
    mods.foldl parseToken st =
      ({ st.1 with
          g_requireCtrl := st.1.g_requireCtrl || mods.any (fun m => decide (m ∈ ctrlNames)),
          g_requireAlt := st.1.g_requireAlt || mods.any (fun m => decide (m ∈ altNames)),
          g_requireShift := st.1.g_requireShift || mods.any (fun m => decide (m ∈ shiftNames)),
          g_requireWin := st.1.g_requireWin || mods.any (fun m => decide (m ∈ winNames)) },
        st.2) := by
  induction mods generalizing st with
  | nil => simp
  | cons m rest ih =>
    rw [List.foldl_cons, parseToken_modifier m (hmods m (List.mem_cons_self _ _)),
      ih (fun x hx => hmods x (List.mem_cons_of_mem _ hx))]
    simp [Bool.or_assoc]

/-- C8 (amended). A spec of at most 255 chars made of zero or more names of
the modifier-name table followed by one recognised key name, joined with `+`,
parses successfully: the flags set are exactly those of the listed modifiers,
the primary key is the (non-zero) code of the key name, and the mode is not
modifiers-only. -/
theorem parse_modifiers_then_key (mods : List (List Nat)) (key : List Nat)
    (hmods : ∀ m ∈ mods, m ∈ modifierNames) (hkey : key ∈ keyNames)
    (hlen : (joinPlus (mods ++ [key])).length ≤ 255) :
    mainParse Globals.initial (joinPlus (mods ++ [key])) =
      some { g_targetVk := ParseKeyCode key,
             g_isKeyDown := false,
             g_requireCtrl := mods.any (fun m => decide (m ∈ ctrlNames)),
             g_requireAlt := mods.any (fun m => decide (m ∈ altNames)),
             g_requireShift := mods.any (fun m => decide (m ∈ shiftNames)),
             g_requireWin := mods.any (fun m => decide (m ∈ winNames)),
             g_useModifiersOnly := false } ∧
    ParseKeyCode key ≠ 0 := by
  obtain ⟨-, -, -, -, -, hcode, hkplus, hk0, hkne⟩ := keyNames_facts key hkey
  have hplus : ∀ t ∈ mods ++ [key], 43 ∉ t := by
    intro t ht
    rcases List.mem_append.1 ht with h | h
    · exact (modifierNames_facts t (hmods t h)).2.2.2.2.2.1
    · rw [List.mem_singleton.1 h]; exact hkplus
  have hnonempty : ∀ t ∈ mods ++ [key], t ≠ [] := by
    intro t ht
    rcases List.mem_append.1 ht with h | h
    · exact (modifierNames_facts t (hmods t h)).2.2.2.2.2.2.2
    · rw [List.mem_singleton.1 h]; exact hkne
  have hzero : 0 ∉ joinPlus (mods ++ [key]) := by
    intro h
    rcases mem_joinPlus 0 _ h with h | ⟨t, ht, h0⟩
    · cases h
    · rcases List.mem_append.1 ht with h | h
      · exact (modifierNames_facts t (hmods t h)).2.2.2.2.2.2.1 h0
      · rw [List.mem_singleton.1 h] at h0; exact hk0 h0
  refine ⟨?_, hcode⟩
  simp only [mainParse, ParseCompoundHotkey]
  rw [strncpyBuffer_eq _ hzero hlen, strtokTokens_joinPlus _ (by simp) hplus hnonempty,
    List.foldl_append, foldl_parseToken_modifiers mods hmods, List.foldl_cons, List.foldl_nil,
    parseToken_key key hkey]
  simp [Globals.initial, hcode]

/-- C8 (amended) at the three specs `F8`, `CommandOrControl+F11` and `Ctrl+Shift+Space`. -/
theorem parse_modifiers_then_key_witness :
    mainParse Globals.initial (cstr "F8") =
      some { Globals.initial with g_targetVk := 0x77 } ∧
    mainParse Globals.initial (cstr "CommandOrControl+F11") =
      some { Globals.initial with g_targetVk := 0x7A, g_requireCtrl := true } ∧
    mainParse Globals.initial (cstr "Ctrl+Shift+Space") =
      some { Globals.initial with g_targetVk := 0x20, g_requireCtrl := true,
                                  g_requireShift := true } :=
  ⟨(parse_modifiers_then_key [] (cstr "F8") (by decide) (by decide) (by decide)).1,
   (parse_modifiers_then_key [cstr "CommandOrControl"] (cstr "F11")
      (by decide) (by decide) (by decide)).1,
   (parse_modifiers_then_key [cstr "Ctrl", cstr "Shift"] (cstr "Space")
      (by decide) (by decide) (by decide)).1⟩

set_option maxRecDepth 1000000 in
/-- C8 (counterexample). The spec made of 51 times `Ctrl` and then `F8`,
joined with `+`, is 257 chars long; only its first 255 chars are read, the key
name is lost, and the parse succeeds in modifiers-only mode with key code 0. -/
theorem long_spec_loses_key :
    (∀ m ∈ List.replicate 51 (cstr "Ctrl"), m ∈ modifierNames) ∧
    cstr "F8" ∈ keyNames ∧
    (joinPlus (List.replicate 51 (cstr "Ctrl") ++ [cstr "F8"])).length = 257 ∧
    mainParse Globals.initial (joinPlus (List.replicate 51 (cstr "Ctrl") ++ [cstr "F8"])) =
      some { Globals.initial with g_targetVk := 0, g_requireCtrl := true,
                                  g_useModifiersOnly := true } ∧
    ParseKeyCode (cstr "F8") = 0x77 := by
  decide

/-- C9. A right-hand-side modifier name is an ordinary primary key: in any
spec its token leaves every modifier flag as it was and sets `mainKeyVk` to the
key code, and the name alone parses to that code with no modifier flag and not
in modifiers-only mode. -/
theorem right_hand_names_are_keys :
    ∀ p ∈ [(cstr "RightAlt", 0xA5), (cstr "RightOption", 0xA5),
           (cstr "RightControl", 0xA3), (cstr "RightCtrl", 0xA3),
           (cstr "RightShift", 0xA1),
           (cstr "RightSuper", 0x5C), (cstr "RightWin", 0x5C), (cstr "RightMeta", 0x5C),
           (cstr "RightCommand", 0x5C), (cstr "RightCmd", 0x5C)],
      (∀ st : Globals × Nat, parseToken st p.1 = (st.1, p.2)) ∧
      mainParse Globals.initial p.1 =
        some { g_targetVk := p.2, g_isKeyDown := false, g_requireCtrl := false,
               g_requireAlt := false, g_requireShift := false, g_requireWin := false,
               g_useModifiersOnly := false } := by
  intro p hp
  have hfacts : p.1 ∈ keyNames ∧ ParseKeyCode p.1 = p.2 ∧
      mainParse Globals.initial p.1 =
        some { g_targetVk := p.2, g_isKeyDown := false, g_requireCtrl := false,
               g_requireAlt := false, g_requireShift := false, g_requireWin := false,
               g_useModifiersOnly := false } := by
    revert p
    decide
  refine ⟨fun st => ?_, hfacts.2.2⟩
  rw [parseToken_key p.1 hfacts.1 st, hfacts.2.1]

/-- C9 at `RightAlt`. -/
theorem right_hand_names_are_keys_witness :
    mainParse Globals.initial (cstr "RightAlt") =
      some { Globals.initial with g_targetVk := VK_RMENU } :=
  (right_hand_names_are_keys (cstr "RightAlt", 0xA5) (by decide)).2

theorem strtokTokens_replicate_plus (n : Nat) : strtokTokens (List.replicate n 43) = [] := by
  have h : ∀ k, splitPlus (List.replicate k 43) = List.replicate (k + 1) [] := by
    intro k
    induction k with
    | zero => rfl
    | succ k ih => rw [List.replicate_succ, splitPlus, ih]; rfl
  unfold strtokTokens
  rw [h, List.filter_eq_nil_iff]
  intro t ht
  rw [List.eq_of_mem_replicate ht]
  decide

theorem strncpyBuffer_replicate_plus (n : Nat) :
    strncpyBuffer (List.replicate n 43) = List.replicate (min 255 n) 43 := by
  unfold strncpyBuffer
  have : (List.replicate n 43).takeWhile (fun c => c != 0) = List.replicate n 43 := by
    rw [List.takeWhile_eq_self_iff]
    intro c hc
    rw [List.eq_of_mem_replicate hc]
    decide
  rw [this, List.take_replicate]

/-- C10. A spec that consists only of `+` chars (the empty spec and `+`
among them) yields no token; `ParseCompoundHotkey` returns key code 0 with no
modifier flag set, and `main` reports the invalid key on stderr, writes
nothing to stdout and returns 1. -/
theorem plus_only_spec_rejected (n : Nat) (prog : List Nat) (hookInstalled : Bool)
    (events : List (KbdEvent × KeyboardState)) :
    strtokTokens (strncpyBuffer (List.replicate n 43)) = [] ∧
    ParseCompoundHotkey Globals.initial (List.replicate n 43) = (0, Globals.initial) ∧
    mainParse Globals.initial (List.replicate n 43) = none ∧
    main [prog, List.replicate n 43] hookInstalled events =
      { exitCode := 1, stdout := [],
        stderr := [Diagnostic.invalidKey (List.replicate n 43)] } ∧
    mainParse Globals.initial (cstr "") = none ∧
    mainParse Globals.initial (cstr "+") = none := by
  have htok : strtokTokens (strncpyBuffer (List.replicate n 43)) = [] := by
    rw [strncpyBuffer_replicate_plus, strtokTokens_replicate_plus]
  have hparse : ParseCompoundHotkey Globals.initial (List.replicate n 43) =
      (0, Globals.initial) := by
    simp only [ParseCompoundHotkey, htok, List.foldl_nil]
    rfl
  have hmain : mainParse Globals.initial (List.replicate n 43) = none := by
    simp only [mainParse, hparse]
    rfl
  refine ⟨htok, hparse, hmain, ?_, by decide, by decide⟩
  simp [main, hmain]

/-! ## The parser: upper and lower case -/

theorem tolower_idem (c : Nat) : tolower (tolower c) = tolower c := by
  unfold tolower
  split_ifs <;> omega

theorem tolower_comp : tolower ∘ tolower = tolower := funext tolower_idem

/-- A char that is not a letter is the lower case of itself only. -/
theorem tolower_eq_iff (c k : Nat) (hk1 : ¬ (65 ≤ k ∧ k ≤ 90)) (hk2 : ¬ (97 ≤ k ∧ k ≤ 122)) :
    tolower c = k ↔ c = k := by
  unfold tolower
  split_ifs <;> omega

theorem tolower_beq (c k : Nat) (hk1 : ¬ (65 ≤ k ∧ k ≤ 90)) (hk2 : ¬ (97 ≤ k ∧ k ≤ 122)) :
    (tolower c == k) = (c == k) := by
  rw [Bool.eq_iff_iff]
  simp [tolower_eq_iff c k hk1 hk2]

theorem stricmp0_lower (t n : List Nat) : stricmp0 (t.map tolower) n = stricmp0 t n := by
  simp [stricmp0, tolower_comp]

theorem strcmp0_lower (t : List Nat) (k : Nat) (hk1 : ¬ (65 ≤ k ∧ k ≤ 90))
    (hk2 : ¬ (97 ≤ k ∧ k ≤ 122)) : strcmp0 (t.map tolower) [k] = strcmp0 t [k] := by
  unfold strcmp0
  rw [Bool.eq_iff_iff]
  cases t with
  | nil => simp
  | cons c rest =>
    cases rest with
    | nil => simp [tolower_eq_iff c k hk1 hk2]
    | cons d rest => simp

theorem singleCharCode_lower (t : List Nat) :
    singleCharCode (t.map tolower) = singleCharCode t := by
  cases t with
  | nil => rfl
  | cons c rest =>
    cases rest with
    | nil =>
      simp only [singleCharCode, List.map, List.length_singleton, if_true, List.getD_cons_zero,
        tolower]
      split_ifs <;> first | rfl | omega | (congr 1; omega)
    | cons d rest => simp [singleCharCode]

theorem digitVal_lower (c : Nat) : digitVal (tolower c) = digitVal c := by
  unfold digitVal tolower
  split_ifs <;> first | rfl | omega

theorem digitsValue_lower (base : Nat) (s : List Nat) (acc : Nat) :
    digitsValue base acc (s.map tolower) = digitsValue base acc s := by
  induction s generalizing acc with
  | nil => rfl
  | cons c rest ih =>
    simp only [List.map, digitsValue, digitVal_lower]
    cases digitVal c with
    | none => rfl
    | some d =>
      simp only
      split_ifs
      · exact ih _
      · rfl

theorem isspace_lower (c : Nat) : isspace (tolower c) = isspace c := by
  unfold isspace tolower
  split_ifs with h
  · have h1 : (c + 32 == 32) = false := beq_false_of_ne (by omega)
    have h2 : (c == 32) = false := beq_false_of_ne (by omega)
    have h3 : decide (c + 32 ≤ 13) = false := decide_eq_false (by omega)
    have h4 : decide (c ≤ 13) = false := decide_eq_false (by omega)
    simp [h1, h2, h3, h4]
  · rfl

theorem dropWhile_isspace_lower (s : List Nat) :
    (s.map tolower).dropWhile isspace = (s.dropWhile isspace).map tolower := by
  induction s with
  | nil => rfl
  | cons c rest ih =>
    simp only [List.map, List.dropWhile, isspace_lower]
    cases isspace c
    · rfl
    · exact ih

theorem takeSign_lower (s : List Nat) :
    takeSign (s.map tolower) = ((takeSign s).1, (takeSign s).2.map tolower) := by
  cases s with
  | nil => rfl
  | cons c rest =>
    simp only [List.map, takeSign, tolower_beq c 45 (by omega) (by omega),
      tolower_beq c 43 (by omega) (by omega)]
    split_ifs <;> rfl

theorem skipHexPrefix_lower (s : List Nat) :
    digitsValue 16 0 (skipHexPrefix (s.map tolower)) = digitsValue 16 0 (skipHexPrefix s) := by
  have hx : ∀ x, (tolower x == 120 || tolower x == 88) = (x == 120 || x == 88) := by
    intro x
    rw [Bool.eq_iff_iff]
    simp only [Bool.or_eq_true, beq_iff_eq, tolower]
    split_ifs <;> omega
  match s with
  | [] => rfl
  | [c] => exact digitsValue_lower 16 [c] 0
  | c :: x :: rest =>
    simp only [List.map, skipHexPrefix, tolower_beq c 48 (by omega) (by omega), hx]
    split_ifs
    · exact digitsValue_lower 16 rest 0
    · exact digitsValue_lower 16 (c :: x :: rest) 0

theorem strtol16_lower (s : List Nat) : strtol16 (s.map tolower) = strtol16 s := by
  simp only [strtol16, dropWhile_isspace_lower, takeSign_lower, skipHexPrefix_lower]

theorem atoi_lower (s : List Nat) : atoi (s.map tolower) = atoi s := by
  simp only [atoi, dropWhile_isspace_lower, takeSign_lower, digitsValue_lower]

theorem getD_lower (s : List Nat) (i : Nat) :
    (s.map tolower).getD i 0 = tolower (s.getD i 0) := by
  induction s generalizing i with
  | nil => simp [tolower]
  | cons c rest ih =>
    cases i with
    | zero => simp
    | succ j => simpa using ih j

theorem numericCode_lower (s : List Nat) : numericCode (s.map tolower) = numericCode s := by
  have hx : ∀ x, (tolower x == 120 || tolower x == 88) = (x == 120 || x == 88) := by
    intro x
    rw [Bool.eq_iff_iff]
    simp only [Bool.or_eq_true, beq_iff_eq, tolower]
    split_ifs <;> omega
  simp only [numericCode, getD_lower, tolower_beq _ 48 (by omega) (by omega), hx,
    strtol16_lower, atoi_lower]

/-- `ParseKeyCode` does not see the case of the letters of its argument. -/
theorem ParseKeyCode_lower (t : List Nat) : ParseKeyCode (t.map tolower) = ParseKeyCode t := by
  have p1 : strcmp0 (t.map tolower) (cstr "`") = strcmp0 t (cstr "`") :=
    strcmp0_lower t 96 (by omega) (by omega)
  have p2 : strcmp0 (t.map tolower) (cstr "-") = strcmp0 t (cstr "-") :=
    strcmp0_lower t 45 (by omega) (by omega)
  have p3 : strcmp0 (t.map tolower) (cstr "=") = strcmp0 t (cstr "=") :=
    strcmp0_lower t 61 (by omega) (by omega)
  have p4 : strcmp0 (t.map tolower) (cstr "[") = strcmp0 t (cstr "[") :=
    strcmp0_lower t 91 (by omega) (by omega)
  have p5 : strcmp0 (t.map tolower) (cstr "]") = strcmp0 t (cstr "]") :=
    strcmp0_lower t 93 (by omega) (by omega)
  have p6 : strcmp0 (t.map tolower) (cstr "\\") = strcmp0 t (cstr "\\") :=
    strcmp0_lower t 92 (by omega) (by omega)
  have p7 : strcmp0 (t.map tolower) (cstr ";") = strcmp0 t (cstr ";") :=
    strcmp0_lower t 59 (by omega) (by omega)
  have p8 : strcmp0 (t.map tolower) (cstr "'") = strcmp0 t (cstr "'") :=
    strcmp0_lower t 39 (by omega) (by omega)
  have p9 : strcmp0 (t.map tolower) (cstr ",") = strcmp0 t (cstr ",") :=
    strcmp0_lower t 44 (by omega) (by omega)
  have p10 : strcmp0 (t.map tolower) (cstr ".") = strcmp0 t (cstr ".") :=
    strcmp0_lower t 46 (by omega) (by omega)
  have p11 : strcmp0 (t.map tolower) (cstr "/") = strcmp0 t (cstr "/") :=
    strcmp0_lower t 47 (by omega) (by omega)
  unfold ParseKeyCode
  simp only [stricmp0_lower, p1, p2, p3, p4, p5, p6, p7, p8, p9, p10, p11,
    singleCharCode_lower, numericCode_lower]

theorem strncpyBuffer_lower (s : List Nat) :
    strncpyBuffer (s.map tolower) = (strncpyBuffer s).map tolower := by
  have h : ∀ l : List Nat, (l.map tolower).takeWhile (fun c => c != 0) =
      (l.takeWhile (fun c => c != 0)).map tolower := by
    intro l
    induction l with
    | nil => rfl
    | cons c rest ih =>
      have hc : (tolower c != 0) = (c != 0) := by
        simp only [bne, tolower_beq c 0 (by omega) (by omega)]
      simp only [List.map, List.takeWhile, hc]
      cases (c != 0)
      · rfl
      · simp only [List.map, ih]
  unfold strncpyBuffer
  rw [h, List.map_take]

theorem splitPlus_lower (s : List Nat) :
    splitPlus (s.map tolower) = (splitPlus s).map (List.map tolower) := by
  induction s with
  | nil => rfl
  | cons c rest ih =>
    simp only [List.map, splitPlus, ih, tolower_beq c 43 (by omega) (by omega)]
    split_ifs
    · rfl
    · cases splitPlus rest <;> rfl

theorem strtokTokens_lower (s : List Nat) :
    strtokTokens (s.map tolower) = (strtokTokens s).map (List.map tolower) := by
  unfold strtokTokens
  rw [splitPlus_lower, List.filter_map]
  congr 1
  apply List.filter_congr
  intro t _
  cases t <;> rfl

theorem dropWhile_space_lower (s : List Nat) :
    (s.map tolower).dropWhile (fun c => c == 32) =
      (s.dropWhile (fun c => c == 32)).map tolower := by
  induction s with
  | nil => rfl
  | cons c rest ih =>
    simp only [List.map, List.dropWhile, tolower_beq c 32 (by omega) (by omega)]
    cases (c == 32)
    · rfl
    · exact ih

theorem rdropWhile_space_lower (s : List Nat) :
    (s.map tolower).rdropWhile (fun c => c == 32) =
      (s.rdropWhile (fun c => c == 32)).map tolower := by
  unfold List.rdropWhile
  rw [← List.map_reverse, dropWhile_space_lower, List.map_reverse]

theorem trimToken_lower (t : List Nat) :
    trimToken (t.map tolower) = (trimToken t).map tolower := by
  unfold trimToken
  rw [dropWhile_space_lower]
  cases t.dropWhile (fun c => c == 32) with
  | nil => rfl
  | cons c rest => simp only [List.map, rdropWhile_space_lower]

theorem parseToken_lower (st : Globals × Nat) (rawToken : List Nat) :
    parseToken st (rawToken.map tolower) = parseToken st rawToken := by
  simp only [parseToken, trimToken_lower, isCtrlName, isAltName, isShiftName, isWinName,
    stricmp0_lower, ParseKeyCode_lower]

theorem ParseCompoundHotkey_lower (g : Globals) (hotkey : List Nat) :
    ParseCompoundHotkey g (hotkey.map tolower) = ParseCompoundHotkey g hotkey := by
  have hfold : ∀ (ts : List (List Nat)) (st : Globals × Nat),
      (ts.map (List.map tolower)).foldl parseToken st = ts.foldl parseToken st := by
    intro ts
    induction ts with
    | nil => intro st; rfl
    | cons t rest ih =>
      intro st
      simp only [List.map, List.foldl, parseToken_lower, ih]
  simp only [ParseCompoundHotkey, strncpyBuffer_lower, strtokTokens_lower, hfold]

/-- C7. Parsing is case-insensitive: two specs that differ only in the ASCII
case of letters leave `ParseCompoundHotkey` with the same result and the same
globals, and `main` goes on with the same outcome: both rejected, or both
accepted with equal flags, key code and mode. -/
theorem parse_case_insensitive (g : Globals) (s t : List Nat)
    (h : s.map tolower = t.map tolower) :
    ParseCompoundHotkey g s = ParseCompoundHotkey g t ∧ mainParse g s = mainParse g t := by
  have hp : ParseCompoundHotkey g s = ParseCompoundHotkey g t := by
    rw [← ParseCompoundHotkey_lower g s, ← ParseCompoundHotkey_lower g t, h]
  exact ⟨hp, by simp only [mainParse, hp]⟩

/-- C7 at `ctrl+shift+f11` and `Ctrl+Shift+F11`. -/
theorem parse_case_insensitive_witness :
    mainParse Globals.initial (cstr "ctrl+shift+f11") =
      mainParse Globals.initial (cstr "Ctrl+Shift+F11") ∧
    mainParse Globals.initial (cstr "Ctrl+Shift+F11") =
      some { Globals.initial with g_targetVk := VK_F11, g_requireCtrl := true,
                                  g_requireShift := true } :=
  ⟨(parse_case_insensitive Globals.initial (cstr "ctrl+shift+f11") (cstr "Ctrl+Shift+F11")
      (by decide)).2, by decide⟩

/-! ## The descriptor that `main` goes on with -/

/-- One turn of the parsing loop changes none of `g_targetVk`, `g_isKeyDown`
and `g_useModifiersOnly`. -/
theorem parseToken_fixed (st : Globals × Nat) (rawToken : List Nat) :
    (parseToken st rawToken).1.g_targetVk = st.1.g_targetVk ∧
    (parseToken st rawToken).1.g_isKeyDown = st.1.g_isKeyDown ∧
    (parseToken st rawToken).1.g_useModifiersOnly = st.1.g_useModifiersOnly := by
  unfold parseToken
  simp only []
  split_ifs <;> exact ⟨rfl, rfl, rfl⟩

theorem foldl_parseToken_fixed (tokens : List (List Nat)) (st : Globals × Nat) :
    (tokens.foldl parseToken st).1.g_targetVk = st.1.g_targetVk ∧
    (tokens.foldl parseToken st).1.g_isKeyDown = st.1.g_isKeyDown ∧
    (tokens.foldl parseToken st).1.g_useModifiersOnly = st.1.g_useModifiersOnly := by
  induction tokens generalizing st with
  | nil => exact ⟨rfl, rfl, rfl⟩
  | cons t rest ih =>
    obtain ⟨h1, h2, h3⟩ := ih (parseToken st t)
    obtain ⟨k1, k2, k3⟩ := parseToken_fixed st t
    exact ⟨h1.trans k1, h2.trans k2, h3.trans k3⟩

/-- `ParseCompoundHotkey` leaves `g_useModifiersOnly` FALSE and does not touch
`g_targetVk` and `g_isKeyDown`. -/
theorem ParseCompoundHotkey_fixed (g : Globals) (hotkey : List Nat) :
    (ParseCompoundHotkey g hotkey).2.g_targetVk = g.g_targetVk ∧
    (ParseCompoundHotkey g hotkey).2.g_isKeyDown = g.g_isKeyDown ∧
    (ParseCompoundHotkey g hotkey).2.g_useModifiersOnly = false := by
  simp only [ParseCompoundHotkey]
  exact foldl_parseToken_fixed _ _

/-- The parsing step of `main` in closed form. -/
theorem mainParse_eq (g : Globals) (hotkey : List Nat) :
    mainParse g hotkey =
      if (ParseCompoundHotkey g hotkey).1 = 0 then
        if ((ParseCompoundHotkey g hotkey).2.g_requireCtrl ||
            (ParseCompoundHotkey g hotkey).2.g_requireAlt ||
            (ParseCompoundHotkey g hotkey).2.g_requireShift ||
            (ParseCompoundHotkey g hotkey).2.g_requireWin) = true then
          some { (ParseCompoundHotkey g hotkey).2 with
                  g_targetVk := 0, g_useModifiersOnly := true }
        else none
      else
        some { (ParseCompoundHotkey g hotkey).2 with
                g_targetVk := (ParseCompoundHotkey g hotkey).1,
                g_useModifiersOnly := false } := by
  have hm := (ParseCompoundHotkey_fixed g hotkey).2.2
  unfold mainParse
  generalize ParseCompoundHotkey g hotkey = r at hm
  obtain ⟨vk, ⟨tv, b, c, a, s, w, m⟩⟩ := r
  simp only at hm
  subst hm
  by_cases hvk : vk = 0
  · subst hvk
    cases c <;> cases a <;> cases s <;> cases w <;> simp
  · simp [hvk]

/-- C11. Descriptor invariant.  For every spec, `main` rejects it exactly
when the key code returned by `ParseCompoundHotkey` is 0 and no modifier flag
is set.  When `main` goes on, the key code and the flags are those that
`ParseCompoundHotkey` left, `g_useModifiersOnly` is TRUE exactly when the key
code is 0 and some modifier flag is set, and exactly one of "the primary key is
present" and "modifiers-only" holds. -/
theorem descriptor_invariant (g : Globals) (spec : List Nat) :
    (mainParse g spec = none ↔
      (ParseCompoundHotkey g spec).1 = 0 ∧
      (ParseCompoundHotkey g spec).2.g_requireCtrl = false ∧
      (ParseCompoundHotkey g spec).2.g_requireAlt = false ∧
      (ParseCompoundHotkey g spec).2.g_requireShift = false ∧
      (ParseCompoundHotkey g spec).2.g_requireWin = false) ∧
    (∀ d : Globals, mainParse g spec = some d →
      d.g_targetVk = (ParseCompoundHotkey g spec).1 ∧
      d.g_requireCtrl = (ParseCompoundHotkey g spec).2.g_requireCtrl ∧
      d.g_requireAlt = (ParseCompoundHotkey g spec).2.g_requireAlt ∧
      d.g_requireShift = (ParseCompoundHotkey g spec).2.g_requireShift ∧
      d.g_requireWin = (ParseCompoundHotkey g spec).2.g_requireWin ∧
      (d.g_useModifiersOnly = true ↔
        d.g_targetVk = 0 ∧
        (d.g_requireCtrl = true ∨ d.g_requireAlt = true ∨ d.g_requireShift = true ∨
          d.g_requireWin = true)) ∧
      ((d.g_targetVk ≠ 0 ∧ d.g_useModifiersOnly = false) ∨
       (d.g_targetVk = 0 ∧ d.g_useModifiersOnly = true))) := by
  rw [mainParse_eq]
  generalize ParseCompoundHotkey g spec = r
  obtain ⟨vk, ⟨tv, b, c, a, s, w, m⟩⟩ := r
  by_cases hvk : vk = 0
  · subst hvk
    cases c <;> cases a <;> cases s <;> cases w <;> simp
  · simp only [hvk, if_false, false_and, iff_false]
    refine ⟨by simp, ?_⟩
    intro d hd
    simp only [Option.some.injEq] at hd
    subst hd
    simp [hvk]

/-- C11 at `Ctrl+F11` (primary key present) and at `Ctrl+Shift`
(modifiers-only). -/
theorem descriptor_invariant_witness :
    ((ctrlF11.g_targetVk ≠ 0 ∧ ctrlF11.g_useModifiersOnly = false) ∨
      (ctrlF11.g_targetVk = 0 ∧ ctrlF11.g_useModifiersOnly = true)) ∧
    ((ctrlShiftOnly.g_targetVk ≠ 0 ∧ ctrlShiftOnly.g_useModifiersOnly = false) ∨
      (ctrlShiftOnly.g_targetVk = 0 ∧ ctrlShiftOnly.g_useModifiersOnly = true)) :=
  ⟨((descriptor_invariant Globals.initial (cstr "Ctrl+F11")).2 ctrlF11
      (by decide)).2.2.2.2.2.2,
   ((descriptor_invariant Globals.initial (cstr "Ctrl+Shift")).2 ctrlShiftOnly
      (by decide)).2.2.2.2.2.2⟩

/-- C13. Modifier-name table.  A spec that is one name of the table, in any
letter case, parses successfully in modifiers-only mode with key code 0 and
with exactly one flag set: Ctrl for Ctrl, Control, CommandOrControl, CmdOrCtrl;
Alt for Alt, Option; Shift for Shift; Win for Super, Meta, Win, Command, Cmd.
As a token of any spec (for every state of the parsing loop) such a name sets
its flag and leaves `mainKeyVk` as it was: it is not passed to `ParseKeyCode`. -/
theorem single_modifier_name (m token : List Nat) (hm : m ∈ modifierNames)
    (hcase : token.map tolower = m.map tolower) :
    mainParse Globals.initial token =
      some { g_targetVk := 0, g_isKeyDown := false,
             g_requireCtrl := decide (m ∈ ctrlNames),
             g_requireAlt := decide (m ∈ altNames),
             g_requireShift := decide (m ∈ shiftNames),
             g_requireWin := decide (m ∈ winNames),
             g_useModifiersOnly := true } ∧
    ((decide (m ∈ ctrlNames)).toNat + (decide (m ∈ altNames)).toNat +
      (decide (m ∈ shiftNames)).toNat + (decide (m ∈ winNames)).toNat = 1) ∧
    (∀ st : Globals × Nat,
      parseToken st token =
        ({ st.1 with
            g_requireCtrl := st.1.g_requireCtrl || decide (m ∈ ctrlNames),
            g_requireAlt := st.1.g_requireAlt || decide (m ∈ altNames),
            g_requireShift := st.1.g_requireShift || decide (m ∈ shiftNames),
            g_requireWin := st.1.g_requireWin || decide (m ∈ winNames) }, st.2)) := by
  have htok : ∀ st : Globals × Nat, parseToken st token = parseToken st m := by
    intro st
    rw [← parseToken_lower st token, hcase, parseToken_lower]
  have hone : ∀ x ∈ modifierNames,
      (decide (x ∈ ctrlNames)).toNat + (decide (x ∈ altNames)).toNat +
        (decide (x ∈ shiftNames)).toNat + (decide (x ∈ winNames)).toNat = 1 := by
    decide
  have hplain : ∀ x ∈ modifierNames,
      mainParse Globals.initial x =
        some { g_targetVk := 0, g_isKeyDown := false,
               g_requireCtrl := decide (x ∈ ctrlNames),
               g_requireAlt := decide (x ∈ altNames),
               g_requireShift := decide (x ∈ shiftNames),
               g_requireWin := decide (x ∈ winNames),
               g_useModifiersOnly := true } := by
    decide
  refine ⟨?_, hone m hm, ?_⟩
  · have hp : ParseCompoundHotkey Globals.initial token =
        ParseCompoundHotkey Globals.initial m := by
      rw [← ParseCompoundHotkey_lower Globals.initial token, hcase,
        ParseCompoundHotkey_lower]
    have : mainParse Globals.initial token = mainParse Globals.initial m := by
      simp only [mainParse, hp]
    rw [this]
    exact hplain m hm
  · intro st
    rw [htok st]
    exact parseToken_modifier m hm st

/-- C13 at `cmdorctrl`, a case variant of `CmdOrCtrl`. -/
theorem single_modifier_name_witness :
    mainParse Globals.initial (cstr "cmdorctrl") =
      some { Globals.initial with g_requireCtrl := true, g_useModifiersOnly := true } :=
  (single_modifier_name (cstr "CmdOrCtrl") (cstr "cmdorctrl") (by decide) (by decide)).1

/-! ## Startup -/

/-- The hook writes KEY_DOWN and KEY_UP lines only. -/
theorem runHook_lines (g : Globals) (events : List (KbdEvent × KeyboardState)) :
    ∀ l ∈ (runHook g events).2, l = Line.KEY_DOWN ∨ l = Line.KEY_UP := by
  induction events generalizing g with
  | nil => intro l hl; simp [runHook] at hl
  | cons p rest ih =>
    obtain ⟨e, ks⟩ := p
    intro l hl
    simp only [runHook, List.mem_append] at hl
    rcases hl with hl | hl
    · rcases hook_step g ks e with h | ⟨_, h⟩ | ⟨_, h⟩ <;> rw [h] at hl <;> simp at hl
      · exact Or.inl hl
      · exact Or.inr hl
    · exact ih _ l hl

/-- C14. Startup.  When the argument is missing, when `main` rejects the
spec, or when the hook is not installed, `main` returns 1 and writes nothing to
stdout.  READY is on stdout exactly when there is an argument, the spec is
accepted and the hook is installed; it is then the first line, it is written
once, and every later line is KEY_DOWN or KEY_UP. -/
theorem main_startup (argv : List (List Nat)) (hookInstalled : Bool)
    (events : List (KbdEvent × KeyboardState)) :
    ((argv.length < 2 ∨ mainParse Globals.initial (argv.getD 1 []) = none ∨
        hookInstalled = false) →
      (main argv hookInstalled events).exitCode = 1 ∧
      (main argv hookInstalled events).stdout = []) ∧
    (Line.READY ∈ (main argv hookInstalled events).stdout ↔
      (2 ≤ argv.length ∧ mainParse Globals.initial (argv.getD 1 []) ≠ none ∧
        hookInstalled = true)) ∧
    (Line.READY ∈ (main argv hookInstalled events).stdout →
      (main argv hookInstalled events).stdout.head? = some Line.READY ∧
      (main argv hookInstalled events).stdout.count Line.READY = 1 ∧
      ∀ l ∈ (main argv hookInstalled events).stdout.tail,
        l = Line.KEY_DOWN ∨ l = Line.KEY_UP) := by
  unfold main
  by_cases hargc : argv.length < 2
  · simp [hargc]
  · simp only [hargc, if_false, false_or]
    cases hp : mainParse Globals.initial (argv.getD 1 []) with
    | none => simp
    | some g =>
      cases hookInstalled with
      | false => simp
      | true =>
        have hlines := runHook_lines g events
        have hnot : Line.READY ∉ (runHook g events).2 := by
          intro h
          rcases hlines _ h with h | h <;> cases h
        simp only [Bool.not_true, Bool.false_eq_true, if_false]
        refine ⟨by simp, ?_, ?_⟩
        · simp; omega
        · intro _
          refine ⟨rfl, ?_, hlines⟩
          rw [List.count_cons_self, List.count_eq_zero_of_not_mem hnot]

/-- C14 at a run with the spec `Ctrl+F11`: without the hook nothing is
written and 1 is returned. -/
theorem main_startup_witness :
    (main [cstr "listener", cstr "Ctrl+F11"] false []).exitCode = 1 ∧
    (main [cstr "listener", cstr "Ctrl+F11"] false []).stdout = [] :=
  (main_startup [cstr "listener", cstr "Ctrl+F11"] false []).1 (Or.inr (Or.inr rfl))

/-! ## The key code in modifiers-only mode, and modifiers as a lower bound -/

/-- C17 (amended). In modifiers-only mode two events with the same `nCode`
and `wParam` and different key codes leave the same globals and write the same
lines, except in one case: the tracker is active, the event is an Up, the
required modifiers are still reported pressed, and exactly one of the two key
codes is a key of a required modifier (the early-release guard reads the key
code in both modes). -/
theorem modifiers_only_key_code (g : Globals) (ks : KeyboardState) (nCode : Int)
    (wParam vk1 vk2 : Nat) (hmode : g.g_useModifiersOnly = true) :
    LowLevelKeyboardProc g ks { nCode := nCode, wParam := wParam, vkCode := vk1 } =
        LowLevelKeyboardProc g ks { nCode := nCode, wParam := wParam, vkCode := vk2 } ↔
      ¬ (g.g_isKeyDown = true ∧
          (KbdEvent.isUp { nCode := nCode, wParam := wParam, vkCode := vk1 }) = true ∧
          AreModifiersPressed g ks = true ∧
          modifierReleased g vk1 ≠ modifierReleased g vk2) := by
  by_cases hn : nCode = HC_ACTION
  · rw [hook_action g ks _ hn, hook_action g ks _ hn]
    simp only [KbdEvent.isUp, hn, decide_True, Bool.true_and, hmode, if_true, Bool.true_or,
      Bool.and_true]
    cases g.g_isKeyDown <;> cases (wParam == WM_KEYUP || wParam == WM_SYSKEYUP) <;>
      cases AreModifiersPressed g ks <;> cases modifierReleased g vk1 <;>
      cases modifierReleased g vk2 <;> simp
  · rw [hook_no_action g ks _ hn, hook_no_action g ks _ hn]
    simp [KbdEvent.isUp, hn]

/-- C17 (counterexample). Modifiers-only descriptor Ctrl+Shift, active, both
modifiers reported pressed: the Up of the left Ctrl key writes KEY_UP and
deactivates, the Up of the key A writes nothing. -/
theorem modifiers_only_reads_key_code :
    ctrlShiftOnly.g_useModifiersOnly = true ∧
    (keyUp VK_LCONTROL).wParam = (keyUp 0x41).wParam ∧
    (keyUp VK_LCONTROL).nCode = (keyUp 0x41).nCode ∧
    LowLevelKeyboardProc { ctrlShiftOnly with g_isKeyDown := true }
        (held [VK_CONTROL, VK_SHIFT]) (keyUp VK_LCONTROL) =
      (ctrlShiftOnly, [Line.KEY_UP]) ∧
    LowLevelKeyboardProc { ctrlShiftOnly with g_isKeyDown := true }
        (held [VK_CONTROL, VK_SHIFT]) (keyUp 0x41) =
      ({ ctrlShiftOnly with g_isKeyDown := true }, []) := by
  decide

/-- C17 (amended) at Ctrl+Shift, active, with Shift no longer pressed: the Up
of the key A and the Up of the key B do the same. -/
theorem modifiers_only_key_code_witness :
    LowLevelKeyboardProc { ctrlShiftOnly with g_isKeyDown := true } (held [VK_CONTROL])
        { nCode := HC_ACTION, wParam := WM_KEYUP, vkCode := 0x41 } =
      LowLevelKeyboardProc { ctrlShiftOnly with g_isKeyDown := true } (held [VK_CONTROL])
        { nCode := HC_ACTION, wParam := WM_KEYUP, vkCode := 0x42 } :=
  (modifiers_only_key_code { ctrlShiftOnly with g_isKeyDown := true } (held [VK_CONTROL])
    HC_ACTION WM_KEYUP 0x41 0x42 rfl).2 (by decide)

/-- `AreModifiersPressed` holds exactly when every required modifier is
reported held: Ctrl, Alt and Shift by their generic key, Win by either side. -/
theorem areModifiersPressed_iff (g : Globals) (ks : KeyboardState) :
    AreModifiersPressed g ks = true ↔
      (g.g_requireCtrl = true → keyHeld ks VK_CONTROL = true) ∧
      (g.g_requireAlt = true → keyHeld ks VK_MENU = true) ∧
      (g.g_requireShift = true → keyHeld ks VK_SHIFT = true) ∧
      (g.g_requireWin = true → keyHeld ks VK_LWIN = true ∨ keyHeld ks VK_RWIN = true) := by
  unfold AreModifiersPressed
  generalize keyHeld ks VK_CONTROL = c
  generalize keyHeld ks VK_MENU = a
  generalize keyHeld ks VK_SHIFT = s
  generalize keyHeld ks VK_LWIN = l
  generalize keyHeld ks VK_RWIN = r
  cases g.g_requireCtrl <;> cases g.g_requireAlt <;> cases g.g_requireShift <;>
    cases g.g_requireWin <;> cases c <;> cases a <;> cases s <;> cases l <;> cases r <;> decide

/-- C20. Required modifiers are a lower bound.  `AreModifiersPressed` is
monotone in the set of held keys; with no modifier flag set it is TRUE for
every keyboard state; and for a descriptor with no modifier flag a Down event
on the primary key received while inactive writes KEY_DOWN and activates,
whatever keys are held. -/
theorem modifiers_lower_bound :
    (∀ (g : Globals) (ks ks2 : KeyboardState),
      (∀ vk, keyHeld ks vk = true → keyHeld ks2 vk = true) →
      AreModifiersPressed g ks = true → AreModifiersPressed g ks2 = true) ∧
    (∀ (g : Globals) (ks : KeyboardState),
      g.g_requireCtrl = false → g.g_requireAlt = false → g.g_requireShift = false →
      g.g_requireWin = false → AreModifiersPressed g ks = true) ∧
    (∀ (g : Globals) (ks : KeyboardState) (e : KbdEvent),
      g.g_requireCtrl = false → g.g_requireAlt = false → g.g_requireShift = false →
      g.g_requireWin = false → g.g_isKeyDown = false →
      e.isDown = true → e.vkCode = g.g_targetVk →
      LowLevelKeyboardProc g ks e = ({ g with g_isKeyDown := true }, [Line.KEY_DOWN])) := by
  have hnone : ∀ (g : Globals) (ks : KeyboardState),
      g.g_requireCtrl = false → g.g_requireAlt = false → g.g_requireShift = false →
      g.g_requireWin = false → AreModifiersPressed g ks = true := by
    intro g ks h1 h2 h3 h4
    simp [AreModifiersPressed, h1, h2, h3, h4]
  refine ⟨?_, hnone, ?_⟩
  · intro g ks ks2 hmono hp
    rw [areModifiersPressed_iff] at hp ⊢
    obtain ⟨hc, ha, hs, hw⟩ := hp
    exact ⟨fun h => hmono _ (hc h), fun h => hmono _ (ha h), fun h => hmono _ (hs h),
      fun h => (hw h).imp (hmono _) (hmono _)⟩
  · intro g ks e h1 h2 h3 h4 h0 hd hvk
    rw [hook_action g ks e ((isDown_iff e).1 hd).1]
    simp [h0, ((isDown_iff e).1 hd).2, hnone g ks h1 h2 h3 h4, hvk]

/-- C20 at the descriptor parsed from `F8`: F8 pressed while Ctrl, Alt, Shift
and Win are all held. -/
theorem modifiers_lower_bound_witness :
    mainParse Globals.initial (cstr "F8") = some { Globals.initial with g_targetVk := VK_F8 } ∧
    LowLevelKeyboardProc { Globals.initial with g_targetVk := VK_F8 }
        (held [VK_CONTROL, VK_MENU, VK_SHIFT, VK_LWIN]) (keyDown VK_F8) =
      ({ Globals.initial with g_targetVk := VK_F8, g_isKeyDown := true }, [Line.KEY_DOWN]) :=
  ⟨by decide,
   modifiers_lower_bound.2.2 { Globals.initial with g_targetVk := VK_F8 }
     (held [VK_CONTROL, VK_MENU, VK_SHIFT, VK_LWIN]) (keyDown VK_F8)
     rfl rfl rfl rfl rfl rfl rfl⟩

/-! ## The enumerated key names -/

set_option maxRecDepth 100000 in
theorem keyAliasGroups_codes : ∀ grp ∈ keyAliasGroups, ∀ n ∈ grp,
    ParseKeyCode n = ParseKeyCode (grp.headD []) ∧ ParseKeyCode n ≠ 0 := by
  decide

set_option maxRecDepth 100000 in
theorem keyAliasGroups_nodup :
    (keyAliasGroups.map (fun grp => ParseKeyCode (grp.headD []))).Nodup := by
  decide

/-- C12. Every enumerated key name, in any letter case, is mapped by
`ParseKeyCode` to a non-zero code, and two such names are mapped to the same
code exactly when they are names of the same key (aliases or case variants). -/
theorem enumerated_keys_distinct_nonzero (grp1 grp2 : List (List Nat))
    (name1 name2 token1 token2 : List Nat)
    (hg1 : grp1 ∈ keyAliasGroups) (hg2 : grp2 ∈ keyAliasGroups)
    (hn1 : name1 ∈ grp1) (hn2 : name2 ∈ grp2)
    (hc1 : token1.map tolower = name1.map tolower)
    (hc2 : token2.map tolower = name2.map tolower) :
    ParseKeyCode token1 ≠ 0 ∧
    (ParseKeyCode token1 = ParseKeyCode token2 ↔ grp1 = grp2) := by
  have e1 : ParseKeyCode token1 = ParseKeyCode name1 := by
    rw [← ParseKeyCode_lower token1, hc1, ParseKeyCode_lower]
  have e2 : ParseKeyCode token2 = ParseKeyCode name2 := by
    rw [← ParseKeyCode_lower token2, hc2, ParseKeyCode_lower]
  obtain ⟨k1, z1⟩ := keyAliasGroups_codes grp1 hg1 name1 hn1
  obtain ⟨k2, -⟩ := keyAliasGroups_codes grp2 hg2 name2 hn2
  rw [e1, e2]
  refine ⟨z1, ?_⟩
  rw [k1, k2]
  constructor
  · intro h
    exact List.inj_on_of_nodup_map keyAliasGroups_nodup hg1 hg2 h
  · intro h
    rw [h]

/-- C12 at `esc` and `ESCAPE` (one key), and at `f1` and `F11` (two keys). -/
theorem enumerated_keys_distinct_nonzero_witness :
    ParseKeyCode (cstr "esc") = ParseKeyCode (cstr "ESCAPE") ∧
    ParseKeyCode (cstr "f1") ≠ ParseKeyCode (cstr "F11") ∧
    ParseKeyCode (cstr "f1") ≠ 0 :=
  ⟨(enumerated_keys_distinct_nonzero [cstr "Escape", cstr "Esc"] [cstr "Escape", cstr "Esc"]
      (cstr "Esc") (cstr "Escape") (cstr "esc") (cstr "ESCAPE")
      (by decide) (by decide) (by decide) (by decide) (by decide) (by decide)).2.2 rfl,
   fun h => absurd
    ((enumerated_keys_distinct_nonzero [cstr "F1"] [cstr "F11"]
      (cstr "F1") (cstr "F11") (cstr "f1") (cstr "F11")
      (by decide) (by decide) (by decide) (by decide) (by decide) (by decide)).2.1 h)
    (by decide),
   (enumerated_keys_distinct_nonzero [cstr "F1"] [cstr "F11"]
      (cstr "F1") (cstr "F11") (cstr "f1") (cstr "F11")
      (by decide) (by decide) (by decide) (by decide) (by decide) (by decide)).1⟩

/-! ## The numeric fallback of `ParseKeyCode` -/

theorem stricmp0_false_of_not_enumerated (token : List Nat)
    (h : isEnumeratedKeyName token = false) :
    ∀ n ∈ keyAliasGroups.flatten, stricmp0 token n = false := by
  intro n hn
  obtain ⟨grp, hg, hng⟩ := List.mem_flatten.1 hn
  unfold isEnumeratedKeyName at h
  rw [List.any_eq_false] at h
  have h2 := h grp hg
  simp only [Bool.not_eq_true] at h2
  rw [List.any_eq_false] at h2
  simpa using h2 n hng

theorem strcmp0_false_of_stricmp0 (a b : List Nat) (h : stricmp0 a b = false) :
    strcmp0 a b = false := by
  unfold stricmp0 at h
  unfold strcmp0
  by_contra hc
  simp only [Bool.not_eq_false, beq_iff_eq] at hc
  rw [hc] at h
  simp at h

set_option maxRecDepth 100000 in
theorem letters_digits_enumerated :
    (∀ i < 26, [65 + i] ∈ keyAliasGroups.flatten) ∧
    (∀ i < 10, [48 + i] ∈ keyAliasGroups.flatten) := by
  decide

/-- A token that is no enumerated key name is no single letter or digit. -/
theorem singleCharCode_of_not_enumerated (token : List Nat)
    (h : isEnumeratedKeyName token = false) : singleCharCode token = none := by
  have hi := stricmp0_false_of_not_enumerated token h
  match token with
  | [] => rfl
  | [c] =>
    simp only [singleCharCode, List.length_singleton, if_true, List.getD_cons_zero]
    split_ifs with h1 h2 h3
    · exfalso
      have := hi [65 + (c - 97)] (letters_digits_enumerated.1 _ (by omega))
      have hl : tolower c = tolower (65 + (c - 97)) := by
        unfold tolower
        split_ifs <;> omega
      simp [stricmp0, hl] at this
    · exfalso
      have := hi [65 + (c - 65)] (letters_digits_enumerated.1 _ (by omega))
      have hl : 65 + (c - 65) = c := by omega
      simp [stricmp0, hl] at this
    · exfalso
      have := hi [48 + (c - 48)] (letters_digits_enumerated.2 _ (by omega))
      have hl : 48 + (c - 48) = c := by omega
      simp [stricmp0, hl] at this
    · rfl
  | _ :: _ :: _ => simp [singleCharCode]

set_option maxRecDepth 100000 in
/-- A token that is no enumerated key name falls through to the numeric end
of `ParseKeyCode`. -/
theorem ParseKeyCode_of_not_enumerated (token : List Nat)
    (h : isEnumeratedKeyName token = false) :
    ParseKeyCode token = numericCode token := by
  have hi := stricmp0_false_of_not_enumerated token h
  have hs : ∀ n ∈ keyAliasGroups.flatten, strcmp0 token n = false :=
    fun n hn => strcmp0_false_of_stricmp0 token n (hi n hn)
  have hsingle : singleCharCode token = none := singleCharCode_of_not_enumerated token h
  unfold ParseKeyCode
  simp (disch := decide) only [hi, hs, hsingle, Bool.or_self, Bool.false_eq_true, if_false]

/-- On a string of digits of the base `digitsValue` reads the whole string. -/
theorem digitsValue_numeral (base : Nat) (digits : List Nat) (acc : Nat)
    (hd : ∀ c ∈ digits, ∃ d, digitVal c = some d ∧ d < base) :
    digitsValue base acc digits =
      digits.foldl (fun a c => a * base + (digitVal c).getD 0) acc := by
  induction digits generalizing acc with
  | nil => rfl
  | cons c rest ih =>
    obtain ⟨d, hc, hlt⟩ := hd c (List.mem_cons_self _ _)
    simp only [digitsValue, hc, hlt, if_true, List.foldl_cons, Option.getD_some]
    exact ih _ (fun x hx => hd x (List.mem_cons_of_mem _ hx))

theorem digitVal_of_isDecDigit (c : Nat) (h : isDecDigit c = true) :
    ∃ d, digitVal c = some d ∧ d < 10 := by
  simp only [isDecDigit, Bool.and_eq_true, decide_eq_true_eq] at h
  refine ⟨c - 48, ?_, by omega⟩
  simp [digitVal, h.1, h.2]

theorem digitVal_of_isHexDigit (c : Nat) (h : isHexDigit c = true) :
    ∃ d, digitVal c = some d ∧ d < 16 := by
  simp only [isHexDigit, isDecDigit, Bool.or_eq_true, Bool.and_eq_true, decide_eq_true_eq] at h
  unfold digitVal
  rcases h with (h | h) | h
  · exact ⟨c - 48, by simp [h.1, h.2], by omega⟩
  · refine ⟨c - 97 + 10, ?_, by omega⟩
    have h1 : ¬ (48 ≤ c ∧ c ≤ 57) := by omega
    have h2 : 97 ≤ c ∧ c ≤ 122 := by omega
    simp [h1, h2]
  · refine ⟨c - 65 + 10, ?_, by omega⟩
    have h1 : ¬ (48 ≤ c ∧ c ≤ 57) := by omega
    have h2 : ¬ (97 ≤ c ∧ c ≤ 122) := by omega
    have h3 : 65 ≤ c ∧ c ≤ 90 := by omega
    simp [h1, h2, h3]

theorem toDWORD_clampLong (v : Nat) (hv : v < 2147483648) :
    toDWORD (clampLong false v) = v := by
  have h : ¬ v > 2147483647 := by omega
  simp only [clampLong, Bool.false_eq_true, if_false, h, toDWORD]
  omega

set_option maxRecDepth 100000 in
theorem enumerated_names_shape : ∀ n ∈ keyAliasGroups.flatten,
    n.length = 1 ∨ isDecDigit (tolower (n.headD 0)) = false := by
  decide

/-- A token of two or more chars that starts with a decimal digit is no
enumerated key name. -/
theorem not_enumerated_of_digit_head (c x : Nat) (rest : List Nat)
    (hc : isDecDigit c = true) : isEnumeratedKeyName (c :: x :: rest) = false := by
  unfold isEnumeratedKeyName
  rw [List.any_eq_false]
  intro grp hg
  simp only [Bool.not_eq_true]
  rw [List.any_eq_false]
  intro n hn
  simp only [Bool.not_eq_true]
  have hshape := enumerated_names_shape n (List.mem_flatten.2 ⟨grp, hg, hn⟩)
  unfold stricmp0
  by_contra hcon
  simp only [Bool.not_eq_false, beq_iff_eq] at hcon
  have hlen := congrArg List.length hcon
  simp only [List.length_map, List.length_cons] at hlen
  rcases hshape with h1 | h1
  · omega
  · cases n with
    | nil => simp at hlen
    | cons a tl =>
      simp only [List.map_cons, List.cons.injEq] at hcon
      simp only [List.headD_cons, ← hcon.1] at h1
      simp only [isDecDigit, Bool.and_eq_true, decide_eq_true_eq] at hc
      have : tolower c = c := by unfold tolower; split_ifs <;> omega
      rw [this] at h1
      simp [isDecDigit, hc.1, hc.2] at h1

/-- C16 (amended). The numeric fallback of `ParseKeyCode`.  A token `0x` or
`0X` followed by hexadecimal digits of value v < 2^31 has code v; a decimal
numeral of two or more digits of value v < 2^31 has code v; neither is an
enumerated key name.  A token that is no enumerated key name and in which no
decimal digit comes right after the white space and sign that `atoi` skips has
code 0; a spec in which it is the only token is rejected when the token is no
modifier name. -/
theorem numeric_fallback :
    (∀ (x : Nat) (digits : List Nat), (x = 120 ∨ x = 88) →
      digits.all isHexDigit = true → numeralValue 16 digits < 2 ^ 31 →
        isEnumeratedKeyName (48 :: x :: digits) = false ∧
        ParseKeyCode (48 :: x :: digits) = numeralValue 16 digits) ∧
    (∀ digits : List Nat, 2 ≤ digits.length →
      digits.all isDecDigit = true → numeralValue 10 digits < 2 ^ 31 →
        isEnumeratedKeyName digits = false ∧
        ParseKeyCode digits = numeralValue 10 digits) ∧
    (∀ token : List Nat, isEnumeratedKeyName token = false →
      beginsWithNumber token = false → ParseKeyCode token = 0) ∧
    (∀ spec rawToken : List Nat, strtokTokens (strncpyBuffer spec) = [rawToken] →
      isModifierName (trimToken rawToken) = false →
      isEnumeratedKeyName (trimToken rawToken) = false →
      beginsWithNumber (trimToken rawToken) = false →
        mainParse Globals.initial spec = none) := by
  have hzero : ∀ token : List Nat, isEnumeratedKeyName token = false →
      beginsWithNumber token = false → ParseKeyCode token = 0 := by
    intro token hne hnum
    rw [ParseKeyCode_of_not_enumerated token hne]
    have hhead : (token.getD 0 0 == 48) = false := by
      cases token with
      | nil => rfl
      | cons c rest =>
        simp only [List.getD_cons_zero]
        by_contra hc
        simp only [Bool.not_eq_false, beq_iff_eq] at hc
        subst hc
        simp [beginsWithNumber, List.dropWhile, isspace, takeSign, isDecDigit] at hnum
    have hval : digitsValue 10 0 (takeSign (token.dropWhile isspace)).2 = 0 := by
      unfold beginsWithNumber at hnum
      cases hr : (takeSign (token.dropWhile isspace)).2 with
      | nil => rfl
      | cons c rest =>
        rw [hr] at hnum
        simp only [isDecDigit, Bool.and_eq_false_iff, decide_eq_false_iff_not] at hnum
        unfold digitsValue digitVal
        split_ifs <;> first | rfl | omega
    simp only [numericCode, hhead, Bool.false_and, Bool.false_eq_true, if_false, atoi, hval]
    cases (takeSign (token.dropWhile isspace)).1 <;> rfl
  refine ⟨?_, ?_, hzero, ?_⟩
  · intro x digits hx hd hv
    have hne := not_enumerated_of_digit_head 48 x digits (by decide)
    refine ⟨hne, ?_⟩
    rw [ParseKeyCode_of_not_enumerated _ hne]
    have hx2 : (x == 120 || x == 88) = true := by
      rcases hx with h | h <;> simp [h]
    have hdv := digitsValue_numeral 16 digits 0
      (fun c hc => digitVal_of_isHexDigit c (List.all_eq_true.1 hd c hc))
    simp only [numericCode, List.getD_cons_zero, List.getD_cons_succ, beq_self_eq_true,
      hx2, Bool.and_self, if_true, strtol16]
    have h1 : List.dropWhile isspace (48 :: x :: digits) = 48 :: x :: digits := by
      simp [List.dropWhile, isspace]
    have h2 : takeSign (48 :: x :: digits) = (false, 48 :: x :: digits) := by
      simp [takeSign]
    have h3 : skipHexPrefix (48 :: x :: digits) = digits := by
      simp [skipHexPrefix, hx2]
    rw [h1, h2]
    simp only [h3, hdv]
    exact toDWORD_clampLong _ (by simpa [numeralValue] using hv)
  · intro digits hlen hd hv
    match digits, hlen, hd, hv with
    | c :: x :: rest, _, hd, hv =>
      have hc : isDecDigit c = true := List.all_eq_true.1 hd c (by simp)
      have hxd : isDecDigit x = true := List.all_eq_true.1 hd x (by simp)
      have hne := not_enumerated_of_digit_head c x rest hc
      refine ⟨hne, ?_⟩
      rw [ParseKeyCode_of_not_enumerated _ hne]
      simp only [isDecDigit, Bool.and_eq_true, decide_eq_true_eq] at hc hxd
      have hx2 : (x == 120 || x == 88) = false := by
        simp only [Bool.or_eq_false_iff, beq_eq_false_iff_ne]
        omega
      have hdv := digitsValue_numeral 10 (c :: x :: rest) 0
        (fun y hy => digitVal_of_isDecDigit y (List.all_eq_true.1 hd y hy))
      have h1 : List.dropWhile isspace (c :: x :: rest) = c :: x :: rest := by
        have : isspace c = false := by
          simp only [isspace, Bool.or_eq_false_iff, beq_eq_false_iff_ne, Bool.and_eq_false_iff,
            decide_eq_false_iff_not]
          omega
        simp [List.dropWhile, this]
      have h2 : takeSign (c :: x :: rest) = (false, c :: x :: rest) := by
        have e1 : (c == 45) = false := beq_false_of_ne (by omega)
        have e2 : (c == 43) = false := beq_false_of_ne (by omega)
        simp [takeSign, e1, e2]
      simp only [numericCode, List.getD_cons_zero, List.getD_cons_succ, hx2, Bool.and_false,
        Bool.false_eq_true, if_false, atoi]
      rw [h1, h2]
      simp only [hdv]
      exact toDWORD_clampLong _ (by simpa [numeralValue] using hv)
  · intro spec rawToken htok hmod hne hnum
    have hcode := hzero _ hne hnum
    simp only [isModifierName, Bool.or_eq_false_iff] at hmod
    obtain ⟨⟨⟨m1, m2⟩, m3⟩, m4⟩ := hmod
    simp only [mainParse, ParseCompoundHotkey, htok, List.foldl_cons, List.foldl_nil,
      parseToken, m1, m2, m3, m4, Bool.false_eq_true, if_false, hcode]
    rfl

/-- C16 (counterexample). The token made of a tab and the digit 5 is no
enumerated key name, no single char, no `0x` numeral and no decimal numeral,
and its first char is no digit; `atoi` skips the tab, the code is 5 and the
spec is accepted with key code 5.  The token `Ctrl` is no enumerated key name
either and has code 0, but the spec `Ctrl` is accepted, as a modifier. -/
theorem tab_digit_token_has_code :
    isEnumeratedKeyName [9, 53] = false ∧ singleCharCode [9, 53] = none ∧
    isDecDigit ([9, 53].headD 0) = false ∧ [9, 53].all isDecDigit = false ∧
    ParseKeyCode [9, 53] = 5 ∧
    mainParse Globals.initial [9, 53] = some { Globals.initial with g_targetVk := 5 } ∧
    isEnumeratedKeyName (cstr "Ctrl") = false ∧ beginsWithNumber (cstr "Ctrl") = false ∧
    ParseKeyCode (cstr "Ctrl") = 0 ∧
    mainParse Globals.initial (cstr "Ctrl") =
      some { Globals.initial with g_requireCtrl := true, g_useModifiersOnly := true } := by
  decide

/-- C16 (amended) at `0x1B`, at `65`, and at `F25` and `Foo`. -/
theorem numeric_fallback_witness :
    ParseKeyCode (cstr "0x1B") = 27 ∧ ParseKeyCode (cstr "65") = 65 ∧
    ParseKeyCode (cstr "F25") = 0 ∧ mainParse Globals.initial (cstr "Foo") = none :=
  ⟨(numeric_fallback.1 120 (cstr "1B") (Or.inl rfl) (by decide) (by decide)).2,
   (numeric_fallback.2.1 (cstr "65") (by decide) (by decide) (by decide)).2,
   numeric_fallback.2.2.1 (cstr "F25") (by decide) (by decide),
   numeric_fallback.2.2.2 (cstr "Foo") (cstr "Foo") (by decide) (by decide) (by decide)
     (by decide)⟩

/-! ## Several tokens: modifiers accumulate, the last key token wins -/

theorem isCtrlName_lower (t : List Nat) : isCtrlName (t.map tolower) = isCtrlName t := by
  simp only [isCtrlName, stricmp0_lower]

theorem isAltName_lower (t : List Nat) : isAltName (t.map tolower) = isAltName t := by
  simp only [isAltName, stricmp0_lower]

theorem isShiftName_lower (t : List Nat) : isShiftName (t.map tolower) = isShiftName t := by
  simp only [isShiftName, stricmp0_lower]

theorem isWinName_lower (t : List Nat) : isWinName (t.map tolower) = isWinName t := by
  simp only [isWinName, stricmp0_lower]

theorem stricmp0_eq_true (a b : List Nat) (h : stricmp0 a b = true) :
    a.map tolower = b.map tolower := by
  simpa [stricmp0] using h

theorem isCtrlName_witness (t : List Nat) (h : isCtrlName t = true) :
    ∃ a ∈ ctrlNames, t.map tolower = a.map tolower := by
  simp only [isCtrlName, Bool.or_eq_true] at h
  rcases h with ((h | h) | h) | h
  · exact ⟨_, by decide, stricmp0_eq_true _ _ h⟩
  · exact ⟨_, by decide, stricmp0_eq_true _ _ h⟩
  · exact ⟨_, by decide, stricmp0_eq_true _ _ h⟩
  · exact ⟨_, by decide, stricmp0_eq_true _ _ h⟩

theorem isAltName_witness (t : List Nat) (h : isAltName t = true) :
    ∃ a ∈ altNames, t.map tolower = a.map tolower := by
  simp only [isAltName, Bool.or_eq_true] at h
  rcases h with h | h
  · exact ⟨_, by decide, stricmp0_eq_true _ _ h⟩
  · exact ⟨_, by decide, stricmp0_eq_true _ _ h⟩

theorem isShiftName_witness (t : List Nat) (h : isShiftName t = true) :
    ∃ a ∈ shiftNames, t.map tolower = a.map tolower :=
  ⟨_, by decide, stricmp0_eq_true _ _ h⟩

theorem modifier_classes_of_names :
    (∀ a ∈ ctrlNames, isAltName a = false ∧ isShiftName a = false ∧ isWinName a = false) ∧
    (∀ a ∈ altNames, isShiftName a = false ∧ isWinName a = false) ∧
    (∀ a ∈ shiftNames, isWinName a = false) := by
  decide

/-- A token satisfies at most one condition of the modifier chain. -/
theorem modifier_classes_exclusive (t : List Nat) :
    (isCtrlName t = true →
      isAltName t = false ∧ isShiftName t = false ∧ isWinName t = false) ∧
    (isAltName t = true → isShiftName t = false ∧ isWinName t = false) ∧
    (isShiftName t = true → isWinName t = false) := by
  refine ⟨fun h => ?_, fun h => ?_, fun h => ?_⟩
  · obtain ⟨a, ha, hl⟩ := isCtrlName_witness t h
    have := modifier_classes_of_names.1 a ha
    rw [← isAltName_lower t, ← isShiftName_lower t, ← isWinName_lower t, hl,
      isAltName_lower, isShiftName_lower, isWinName_lower]
    exact this
  · obtain ⟨a, ha, hl⟩ := isAltName_witness t h
    have := modifier_classes_of_names.2.1 a ha
    rw [← isShiftName_lower t, ← isWinName_lower t, hl, isShiftName_lower, isWinName_lower]
    exact this
  · obtain ⟨a, ha, hl⟩ := isShiftName_witness t h
    have := modifier_classes_of_names.2.2 a ha
    rw [← isWinName_lower t, hl, isWinName_lower]
    exact this

/-- One turn of the parsing loop: a modifier name sets its flag, any other
token replaces `mainKeyVk` by its key code. -/
theorem parseToken_eq (st : Globals × Nat) (rawToken : List Nat) :
    parseToken st rawToken =
      ({ st.1 with
          g_requireCtrl := st.1.g_requireCtrl || isCtrlName (trimToken rawToken),
          g_requireAlt := st.1.g_requireAlt || isAltName (trimToken rawToken),
          g_requireShift := st.1.g_requireShift || isShiftName (trimToken rawToken),
          g_requireWin := st.1.g_requireWin || isWinName (trimToken rawToken) },
        if isModifierName (trimToken rawToken) then st.2
        else ParseKeyCode (trimToken rawToken)) := by
  obtain ⟨h1, h2, h3⟩ := modifier_classes_exclusive (trimToken rawToken)
  unfold parseToken isModifierName
  simp only []
  obtain ⟨⟨vk, b, c, a, s, w, mo⟩, v⟩ := st
  generalize isCtrlName (trimToken rawToken) = x1 at *
  generalize isAltName (trimToken rawToken) = x2 at *
  generalize isShiftName (trimToken rawToken) = x3 at *
  generalize isWinName (trimToken rawToken) = x4 at *
  cases x1 <;> cases x2 <;> cases x3 <;> cases x4 <;> simp at h1 h2 h3 ⊢

theorem getLast?_cons_eq (a : List Nat) (l : List (List Nat)) :
    (a :: l).getLast? =
      match l.getLast? with
      | some x => some x
      | none => some a := by
  cases l with
  | nil => rfl
  | cons y ys =>
    rw [List.getLast?_cons_cons, List.getLast?_eq_getLast _ (List.cons_ne_nil y ys)]

theorem lastKeyToken_cons (t : List Nat) (rest : List (List Nat)) :
    lastKeyToken (t :: rest) =
      match lastKeyToken rest with
      | some x => some x
      | none => if isModifierName t then none else some t := by
  unfold lastKeyToken
  cases hm : isModifierName t
  · simp only [List.filter_cons, hm, Bool.not_false, if_true, Bool.false_eq_true, if_false]
    exact getLast?_cons_eq _ _
  · simp only [List.filter_cons, hm, Bool.not_true, Bool.false_eq_true, if_false, if_true]
    cases (rest.filter (fun t => !isModifierName t)).getLast? <;> rfl

/-- The parsing loop over a list of raw tokens. -/
theorem foldl_parseToken_eq (raws : List (List Nat)) (st : Globals × Nat) :
    raws.foldl parseToken st =
      ({ st.1 with
          g_requireCtrl := st.1.g_requireCtrl || (raws.map trimToken).any isCtrlName,
          g_requireAlt := st.1.g_requireAlt || (raws.map trimToken).any isAltName,
          g_requireShift := st.1.g_requireShift || (raws.map trimToken).any isShiftName,
          g_requireWin := st.1.g_requireWin || (raws.map trimToken).any isWinName },
        match lastKeyToken (raws.map trimToken) with
        | some t => ParseKeyCode t
        | none => st.2) := by
  induction raws generalizing st with
  | nil => simp [lastKeyToken]
  | cons r rest ih =>
    rw [List.foldl_cons, ih, parseToken_eq, List.map_cons, lastKeyToken_cons]
    simp only [List.any_cons, Bool.or_assoc]
    cases lastKeyToken (rest.map trimToken) with
    | some x => rfl
    | none =>
      cases isModifierName (trimToken r) <;> rfl

/-- `ParseCompoundHotkey` in closed form over the parsed tokens. -/
theorem ParseCompoundHotkey_eq (g : Globals) (spec : List Nat) :
    ParseCompoundHotkey g spec =
      ((match lastKeyToken (parsedTokens spec) with
        | some t => ParseKeyCode t
        | none => 0),
       { g with
          g_requireCtrl := (parsedTokens spec).any isCtrlName,
          g_requireAlt := (parsedTokens spec).any isAltName,
          g_requireShift := (parsedTokens spec).any isShiftName,
          g_requireWin := (parsedTokens spec).any isWinName,
          g_useModifiersOnly := false }) := by
  simp only [ParseCompoundHotkey, foldl_parseToken_eq, parsedTokens, Bool.false_or]

theorem any_isModifierName (tokens : List (List Nat)) :
    tokens.any isModifierName =
      (tokens.any isCtrlName || tokens.any isAltName || tokens.any isShiftName ||
        tokens.any isWinName) := by
  induction tokens with
  | nil => rfl
  | cons t rest ih =>
    simp only [List.any_cons, ih, isModifierName]
    cases isCtrlName t <;> cases isAltName t <;> cases isShiftName t <;> cases isWinName t <;>
      cases rest.any isCtrlName <;> cases rest.any isAltName <;>
      cases rest.any isShiftName <;> cases rest.any isWinName <;> rfl

/-- A spec of at most 255 chars is read whole: its parsed tokens are the
tokens of the whole string. -/
theorem parsedTokens_of_short (spec : List Nat) (h0 : 0 ∉ spec) (hlen : spec.length ≤ 255) :
    parsedTokens spec = specTokens spec := by
  unfold parsedTokens specTokens
  rw [strncpyBuffer_eq spec h0 hlen]

/-- C18 (amended). Several non-modifier tokens are not merged; the last one
wins.  With the tokens taken from the first 255 chars of the spec (the whole
spec when it has at most 255 chars): the key code returned by
`ParseCompoundHotkey` is `ParseKeyCode` of the last token that is no modifier
name, whatever the earlier such tokens are (0 when there is none), and each
modifier flag is set exactly when some token is a name of that modifier. -/
theorem last_key_token_wins (g : Globals) (spec : List Nat) :
    (∀ t, lastKeyToken (parsedTokens spec) = some t →
      (ParseCompoundHotkey g spec).1 = ParseKeyCode t) ∧
    (lastKeyToken (parsedTokens spec) = none → (ParseCompoundHotkey g spec).1 = 0) ∧
    (ParseCompoundHotkey g spec).2.g_requireCtrl = (parsedTokens spec).any isCtrlName ∧
    (ParseCompoundHotkey g spec).2.g_requireAlt = (parsedTokens spec).any isAltName ∧
    (ParseCompoundHotkey g spec).2.g_requireShift = (parsedTokens spec).any isShiftName ∧
    (ParseCompoundHotkey g spec).2.g_requireWin = (parsedTokens spec).any isWinName ∧
    (0 ∉ spec → spec.length ≤ 255 → parsedTokens spec = specTokens spec) := by
  rw [ParseCompoundHotkey_eq]
  refine ⟨?_, ?_, rfl, rfl, rfl, rfl, parsedTokens_of_short spec⟩
  · intro t ht
    simp only [ht]
  · intro ht
    simp only [ht]

/-- C18 (amended) at `F8+F9` and at `Shift+F8+Ctrl+F9`: key F9. -/
theorem last_key_token_wins_witness :
    (ParseCompoundHotkey Globals.initial (cstr "F8+F9")).1 = 0x78 ∧
    (ParseCompoundHotkey Globals.initial (cstr "Shift+F8+Ctrl+F9")).1 = 0x78 :=
  ⟨(last_key_token_wins Globals.initial (cstr "F8+F9")).1 (cstr "F9") (by decide),
   (last_key_token_wins Globals.initial (cstr "Shift+F8+Ctrl+F9")).1 (cstr "F9") (by decide)⟩

set_option maxRecDepth 1000000 in
/-- C18 (counterexample). The spec made of 51 times `Ctrl`, then `F8`, then
`F9`, joined with `+`, is 260 chars long and has two non-modifier tokens, the
last one `F9` with code 0x78; `ParseCompoundHotkey` reads the first 255 chars,
finds no key token and returns 0. -/
theorem long_spec_last_token_lost :
    (joinPlus (List.replicate 51 (cstr "Ctrl") ++ [cstr "F8", cstr "F9"])).length = 260 ∧
    (specTokens (joinPlus (List.replicate 51 (cstr "Ctrl") ++ [cstr "F8", cstr "F9"]))).filter
        (fun t => !isModifierName t) = [cstr "F8", cstr "F9"] ∧
    lastKeyToken (specTokens
        (joinPlus (List.replicate 51 (cstr "Ctrl") ++ [cstr "F8", cstr "F9"]))) =
      some (cstr "F9") ∧
    ParseKeyCode (cstr "F9") = 0x78 ∧
    (ParseCompoundHotkey Globals.initial
        (joinPlus (List.replicate 51 (cstr "Ctrl") ++ [cstr "F8", cstr "F9"]))).1 = 0 := by
  decide

/-- C19 (amended). An unrecognised key is dropped when a modifier is present.
With the tokens taken from the first 255 chars of the spec (the whole spec when
it has at most 255 chars): when some token is a modifier name and the last
token that is no modifier name has key code 0, `main` accepts the spec in
modifiers-only mode with key code 0 and the flags of the modifier names; with
these globals a Down event on any key, received while inactive with the
required modifiers pressed, writes KEY_DOWN. -/
theorem unrecognised_key_dropped (spec t : List Nat)
    (hmod : (parsedTokens spec).any isModifierName = true)
    (hlast : lastKeyToken (parsedTokens spec) = some t) (hzero : ParseKeyCode t = 0) :
    mainParse Globals.initial spec =
      some { g_targetVk := 0, g_isKeyDown := false,
             g_requireCtrl := (parsedTokens spec).any isCtrlName,
             g_requireAlt := (parsedTokens spec).any isAltName,
             g_requireShift := (parsedTokens spec).any isShiftName,
             g_requireWin := (parsedTokens spec).any isWinName,
             g_useModifiersOnly := true } ∧
    (∀ (d : Globals) (ks : KeyboardState) (e : KbdEvent),
      mainParse Globals.initial spec = some d → e.isDown = true →
      AreModifiersPressed d ks = true →
        LowLevelKeyboardProc d ks e = ({ d with g_isKeyDown := true }, [Line.KEY_DOWN])) ∧
    (0 ∉ spec → spec.length ≤ 255 → parsedTokens spec = specTokens spec) := by
  have hparse : mainParse Globals.initial spec =
      some { g_targetVk := 0, g_isKeyDown := false,
             g_requireCtrl := (parsedTokens spec).any isCtrlName,
             g_requireAlt := (parsedTokens spec).any isAltName,
             g_requireShift := (parsedTokens spec).any isShiftName,
             g_requireWin := (parsedTokens spec).any isWinName,
             g_useModifiersOnly := true } := by
    rw [any_isModifierName] at hmod
    rw [mainParse_eq, ParseCompoundHotkey_eq]
    simp only [hlast, hzero, if_true, hmod]
    rfl
  refine ⟨hparse, ?_, parsedTokens_of_short spec⟩
  intro d ks e hd hdown hp
  rw [hparse] at hd
  simp only [Option.some.injEq] at hd
  subst hd
  rw [hook_action _ ks e ((isDown_iff e).1 hdown).1]
  simp [((isDown_iff e).1 hdown).2, hp]

/-- C19 (amended) at `Ctrl+F25` and at `Ctrl+Foo`. -/
theorem unrecognised_key_dropped_witness :
    mainParse Globals.initial (cstr "Ctrl+F25") =
      some { Globals.initial with g_requireCtrl := true, g_useModifiersOnly := true } ∧
    mainParse Globals.initial (cstr "Ctrl+Foo") =
      some { Globals.initial with g_requireCtrl := true, g_useModifiersOnly := true } :=
  ⟨(unrecognised_key_dropped (cstr "Ctrl+F25") (cstr "F25") (by decide) (by decide)
      (by decide)).1,
   (unrecognised_key_dropped (cstr "Ctrl+Foo") (cstr "Foo") (by decide) (by decide)
      (by decide)).1⟩

set_option maxRecDepth 1000000 in
/-- C19 (counterexample). The spec made of 64 times `Foo` and then `Ctrl`,
joined with `+`, is 260 chars long; it contains the modifier token `Ctrl`, and
its last non-modifier token `Foo` has code 0.  `ParseCompoundHotkey` reads the
first 255 chars, which hold no modifier, and `main` rejects the spec. -/
theorem long_spec_modifier_lost :
    (joinPlus (List.replicate 64 (cstr "Foo") ++ [cstr "Ctrl"])).length = 260 ∧
    (specTokens (joinPlus (List.replicate 64 (cstr "Foo") ++ [cstr "Ctrl"]))).any
        isModifierName = true ∧
    lastKeyToken (specTokens (joinPlus (List.replicate 64 (cstr "Foo") ++ [cstr "Ctrl"]))) =
      some (cstr "Foo") ∧
    ParseKeyCode (cstr "Foo") = 0 ∧
    mainParse Globals.initial (joinPlus (List.replicate 64 (cstr "Foo") ++ [cstr "Ctrl"])) =
      none := by
  decide

/-! ## Spaces around tokens -/

theorem joinPlus_cons_of_ne_nil (t : List Nat) (ts : List (List Nat)) (h : ts ≠ []) :
    joinPlus (t :: ts) = t ++ 43 :: joinPlus ts := by
  cases ts with
  | nil => exact absurd rfl h
  | cons u us => rfl

theorem joinPlus_cons_char (c : Nat) (t : List Nat) (ts : List (List Nat)) :
    joinPlus ((c :: t) :: ts) = c :: joinPlus (t :: ts) := by
  cases ts <;> rfl

/-- A string is its fields joined with `+`. -/
theorem joinPlus_splitPlus (s : List Nat) : joinPlus (splitPlus s) = s := by
  induction s with
  | nil => rfl
  | cons c cs ih =>
    rw [splitPlus]
    split_ifs with hc
    · rw [joinPlus_cons_of_ne_nil _ _ (splitPlus_ne_nil cs), ih]
      simp only [beq_iff_eq] at hc
      simp [hc]
    · cases hs : splitPlus cs with
      | nil => exact absurd hs (splitPlus_ne_nil cs)
      | cons t ts =>
        simp only []
        rw [joinPlus_cons_char, ← hs, ih]

theorem mem_splitPlus (s : List Nat) :
    ∀ f ∈ splitPlus s, 43 ∉ f ∧ ∀ c ∈ f, c ∈ s := by
  induction s with
  | nil =>
    intro f hf
    simp only [splitPlus, List.mem_singleton] at hf
    subst hf
    simp
  | cons c cs ih =>
    intro f hf
    rw [splitPlus] at hf
    split_ifs at hf with hc
    · rcases List.mem_cons.1 hf with h | h
      · subst h; simp
      · obtain ⟨h1, h2⟩ := ih f h
        exact ⟨h1, fun x hx => List.mem_cons_of_mem _ (h2 x hx)⟩
    · cases hs : splitPlus cs with
      | nil => exact absurd hs (splitPlus_ne_nil cs)
      | cons t ts =>
        rw [hs] at hf ih
        simp only [] at hf
        rcases List.mem_cons.1 hf with h | h
        · subst h
          obtain ⟨h1, h2⟩ := ih t (List.mem_cons_self _ _)
          have hc2 : ¬ c = 43 := by simpa using hc
          refine ⟨?_, ?_⟩
          · intro hm
            rcases List.mem_cons.1 hm with h | h
            · exact hc2 h.symm
            · exact h1 h
          · intro x hx
            rcases List.mem_cons.1 hx with h | h
            · subst h; exact List.mem_cons_self _ _
            · exact List.mem_cons_of_mem _ (h2 x h)
        · obtain ⟨h1, h2⟩ := ih f (List.mem_cons_of_mem _ h)
          exact ⟨h1, fun x hx => List.mem_cons_of_mem _ (h2 x hx)⟩

theorem dropWhile_space_replicate_append (a : Nat) (l : List Nat) :
    (List.replicate a 32 ++ l).dropWhile (fun c => c == 32) =
      l.dropWhile (fun c => c == 32) := by
  induction a with
  | zero => rfl
  | succ k ih => simp [List.replicate_succ, List.dropWhile, ih]

theorem rdropWhile_space_append_replicate (b : Nat) (l : List Nat) :
    (l ++ List.replicate b 32).rdropWhile (fun c => c == 32) =
      l.rdropWhile (fun c => c == 32) := by
  induction b with
  | zero => simp
  | succ k ih =>
    rw [List.replicate_succ', ← List.append_assoc, List.rdropWhile_concat_pos _ _ _ (by rfl), ih]

theorem dropWhile_space_append_replicate (b : Nat) (l : List Nat) :
    (l ++ List.replicate b 32).dropWhile (fun c => c == 32) =
      match l.dropWhile (fun c => c == 32) with
      | [] => []
      | c :: rest => c :: (rest ++ List.replicate b 32) := by
  induction l with
  | nil =>
    have := dropWhile_space_replicate_append b []
    simp only [List.append_nil] at this
    simp [this]
  | cons x xs ih =>
    by_cases hx : x = 32
    · subst hx
      simpa [List.dropWhile] using ih
    · have : (x == 32) = false := by simpa using hx
      simp [List.dropWhile, this]

/-- Spaces before and after a token are trimmed away. -/
theorem trimToken_padded (a b : Nat) (f : List Nat) :
    trimToken (List.replicate a 32 ++ f ++ List.replicate b 32) = trimToken f := by
  unfold trimToken
  rw [List.append_assoc, dropWhile_space_replicate_append, dropWhile_space_append_replicate]
  cases f.dropWhile (fun c => c == 32) with
  | nil => rfl
  | cons c rest => simp only [rdropWhile_space_append_replicate]

theorem parseToken_padded (st : Globals × Nat) (a b : Nat) (f : List Nat) :
    parseToken st (List.replicate a 32 ++ f ++ List.replicate b 32) = parseToken st f := by
  simp only [parseToken, trimToken_padded]

theorem spacePadded_facts (f p : List Nat) (h : SpacePadded f p) :
    (p.isEmpty = f.isEmpty) ∧ f.length ≤ p.length ∧ (43 ∉ f → 43 ∉ p) ∧ (0 ∉ f → 0 ∉ p) ∧
    ∀ st, parseToken st p = parseToken st f := by
  rcases h with ⟨hf, hp⟩ | ⟨hf, a, b, hp⟩
  · subst hf; subst hp
    exact ⟨rfl, le_refl _, id, id, fun _ => rfl⟩
  · subst hp
    refine ⟨?_, ?_, ?_, ?_, fun st => parseToken_padded st a b f⟩
    · cases f with
      | nil => exact absurd rfl hf
      | cons c cs => cases a <;> simp [List.replicate_succ]
    · simp only [List.length_append, List.length_replicate]
      omega
    · intro h43 hm
      simp only [List.mem_append, List.mem_replicate] at hm
      rcases hm with (⟨_, h⟩ | h) | ⟨_, h⟩
      · cases h
      · exact h43 h
      · cases h
    · intro h0 hm
      simp only [List.mem_append, List.mem_replicate] at hm
      rcases hm with (⟨_, h⟩ | h) | ⟨_, h⟩
      · cases h
      · exact h0 h
      · cases h

theorem length_joinPlus_le (fs ps : List (List Nat)) (h : List.Forall₂ SpacePadded fs ps) :
    (joinPlus fs).length ≤ (joinPlus ps).length := by
  induction h with
  | nil => exact le_refl _
  | @cons f p fs ps hfp hrest ih =>
    have hl := (spacePadded_facts f p hfp).2.1
    cases hrest with
    | nil => simpa [joinPlus] using hl
    | cons h1 h2 =>
      rw [joinPlus_cons_cons, joinPlus_cons_cons]
      simp only [List.length_append, List.length_cons] at ih ⊢
      omega

theorem foldl_parseToken_padded (fs ps : List (List Nat))
    (h : List.Forall₂ SpacePadded fs ps) (st : Globals × Nat) :
    (ps.filter (fun t => !t.isEmpty)).foldl parseToken st =
      (fs.filter (fun t => !t.isEmpty)).foldl parseToken st := by
  induction h generalizing st with
  | nil => rfl
  | @cons f p fs ps hfp _ ih =>
    obtain ⟨he, -, -, -, hpt⟩ := spacePadded_facts f p hfp
    simp only [List.filter_cons, he]
    cases f.isEmpty
    · simp only [Bool.not_false, if_true, List.foldl_cons, hpt, ih]
    · simp only [Bool.not_true, Bool.false_eq_true, if_false, ih]

theorem padded_fields_clean (fs ps : List (List Nat)) (h : List.Forall₂ SpacePadded fs ps)
    (hf : ∀ f ∈ fs, 43 ∉ f ∧ 0 ∉ f) : ∀ p ∈ ps, 43 ∉ p ∧ 0 ∉ p := by
  induction h with
  | nil => intro p hp; cases hp
  | @cons f p fs ps hfp _ ih =>
    intro q hq
    obtain ⟨-, -, h43, h0, -⟩ := spacePadded_facts f p hfp
    rcases List.mem_cons.1 hq with h | h
    · subst h
      exact ⟨h43 (hf f (List.mem_cons_self _ _)).1, h0 (hf f (List.mem_cons_self _ _)).2⟩
    · exact ih (fun x hx => hf x (List.mem_cons_of_mem _ hx)) q h

/-- C15 (amended). Spaces around tokens are ignored.  For every spec, when
space chars are inserted before and after the tokens of the spec (the
non-empty fields between `+` chars) and the result has at most 255 chars, both
specs leave `ParseCompoundHotkey` with the same result and `main` with the same
outcome. -/
theorem spaces_around_tokens (g : Globals) (spec : List Nat)
    (paddedFields : List (List Nat)) (h0 : 0 ∉ spec)
    (hpad : List.Forall₂ SpacePadded (splitPlus spec) paddedFields)
    (hlen : (joinPlus paddedFields).length ≤ 255) :
    ParseCompoundHotkey g (joinPlus paddedFields) = ParseCompoundHotkey g spec ∧
    mainParse g (joinPlus paddedFields) = mainParse g spec := by
  have hfs : ∀ f ∈ splitPlus spec, 43 ∉ f ∧ 0 ∉ f := by
    intro f hf
    obtain ⟨h1, h2⟩ := mem_splitPlus spec f hf
    exact ⟨h1, fun h => h0 (h2 0 h)⟩
  have hps := padded_fields_clean _ _ hpad hfs
  have hne : paddedFields ≠ [] := by
    intro h
    have hl := hpad.length_eq
    rw [h, List.length_nil, List.length_eq_zero] at hl
    exact splitPlus_ne_nil spec hl
  have hsplit : splitPlus (joinPlus paddedFields) = paddedFields :=
    splitPlus_joinPlus paddedFields hne (fun p hp => (hps p hp).1)
  have hz : 0 ∉ joinPlus paddedFields := by
    intro h
    rcases mem_joinPlus 0 _ h with h | ⟨t, ht, h⟩
    · cases h
    · exact (hps t ht).2 h
  have hlen2 : spec.length ≤ 255 := by
    have := length_joinPlus_le _ _ hpad
    rw [joinPlus_splitPlus] at this
    omega
  have hp : ParseCompoundHotkey g (joinPlus paddedFields) = ParseCompoundHotkey g spec := by
    simp only [ParseCompoundHotkey, strncpyBuffer_eq _ hz hlen, strncpyBuffer_eq _ h0 hlen2,
      strtokTokens, hsplit, foldl_parseToken_padded _ _ hpad]
  exact ⟨hp, by simp only [mainParse, hp]⟩

/-- C15 (amended) at `Ctrl+Shift+F11` and `Ctrl + Shift + F11`. -/
theorem spaces_around_tokens_witness :
    mainParse Globals.initial (cstr "Ctrl + Shift + F11") =
      mainParse Globals.initial (cstr "Ctrl+Shift+F11") :=
  (spaces_around_tokens Globals.initial (cstr "Ctrl+Shift+F11")
    [cstr "Ctrl ", cstr " Shift ", cstr " F11"] (by decide)
    (List.Forall₂.cons (Or.inr ⟨by decide, 0, 1, by decide⟩)
      (List.Forall₂.cons (Or.inr ⟨by decide, 1, 1, by decide⟩)
        (List.Forall₂.cons (Or.inr ⟨by decide, 1, 0, by decide⟩) List.Forall₂.nil)))
    (by decide)).2

set_option maxRecDepth 1000000 in
/-- C15 (counterexample). A tab inserted before the token `F11` of `Ctrl+F11`
is not trimmed: the token is no key name, its code is 0, and the spec is
accepted in modifiers-only mode instead of with the key F11.  And 254 spaces
inserted before `F8` give a spec of 256 chars, of which the first 255 are
read: the key code is that of the letter F. -/
theorem tab_before_token_changes_parse :
    mainParse Globals.initial (cstr "Ctrl+F11") = some ctrlF11 ∧
    isspace 9 = true ∧
    mainParse Globals.initial (cstr "Ctrl+" ++ 9 :: cstr "F11") =
      some { Globals.initial with g_requireCtrl := true, g_useModifiersOnly := true } ∧
    mainParse Globals.initial (cstr "F8") = some { Globals.initial with g_targetVk := 0x77 } ∧
    mainParse Globals.initial (List.replicate 254 32 ++ cstr "F8") =
      some { Globals.initial with g_targetVk := 0x46 } := by
  decide

end KeyListener
